import Mathlib

/-!
Verification development for the XDL Processing repository: a shallow
embedding of the filename parameter parser (`src/filename_parser.py`),
the data catalog grouping operations (`src/data_model.py`) and the ESA
impact-region / k-factor analysis (`src/esa_analysis.py`), together with
theorems settling the specification's claims.

Python floats are modelled as rationals (`ℚ`); Python `None` as `Option`;
exceptions as `Option`/`Except` results.  Regular-expression patterns are
embedded as executable matchers over `List Char` that implement the same
grammar with the same leftmost / greedy-with-backtracking semantics.
-/

namespace XDL

/-! ## Character classes and low-level string utilities -/

/-- Python regex `\s` (ASCII whitespace, as appears in the filename patterns). -/
def isSpaceCh (c : Char) : Bool :=
  c = ' ' || c = '\t' || c = '\n' || c = '\x0d' || c = '\x0c' || c = '\x0b'

/-- Python regex `\w` (word character; the filenames here are ASCII). -/
def isWordCh (c : Char) : Bool :=
  c.isAlpha || c.isDigit || c = '_'

/-- Character class `[\w\-\.]` used by the Focus / Offset capture groups. -/
def isTokCh (c : Char) : Bool :=
  isWordCh c || c = '-' || c = '.'

/-- Digit value of a character. -/
def digitVal (c : Char) : ℕ := c.toNat - 48

/-- Numeric value of a digit string (most significant first). -/
def natVal (l : List Char) : ℕ :=
  l.foldl (fun a c => a * 10 + digitVal c) 0

/-- Here `startsWithL pre l` : `pre` is a prefix of `l`. -/
def startsWithL : List Char → List Char → Bool
  | [], _ => true
  | _ :: _, [] => false
  | p :: ps, c :: cs => p = c && startsWithL ps cs

/-- Here `endsWithL l suf` : `suf` is a suffix of `l` (Python `str.endswith`). -/
def endsWithL (l suf : List Char) : Bool :=
  startsWithL suf.reverse l.reverse

/-- The characters of a string. -/
def chars (s : String) : List Char := s.toList

/-- Rebuild a string from characters. -/
def strOf (l : List Char) : String := String.mk l

/-! ## `float()` : Python float parsing, restricted to the plain decimal
forms (optional sign, integer part, optional fractional part) that the
filename grammars can produce.  `none` models a raised `ValueError`. -/

/-- Sign application. -/
def applySign (neg : Bool) (q : ℚ) : ℚ := if neg then -q else q

/-- The unsigned part of Python `float(s)`: digits with an optional
fractional part (`"5"`, `"5."`, `"5.25"`, `".5"`). -/
def parseUnsigned? (l1 : List Char) : Option ℚ :=
  let ip := l1.takeWhile Char.isDigit
  match l1.dropWhile Char.isDigit with
  | [] => if ip = [] then none else some (natVal ip)
  | '.' :: r2 =>
    let fp := r2.takeWhile Char.isDigit
    if r2.dropWhile Char.isDigit = [] ∧ (ip ≠ [] ∨ fp ≠ []) then
      some ((natVal ip : ℚ) + (natVal fp : ℚ) / (10 : ℚ) ^ fp.length)
    else none
  | _ => none

/-- Model of Python `float(s)` on plain decimal strings: optional sign,
then digits with an optional fractional part; anything else raises
(= `none`).  `float("5.")` and `float(".5")` succeed in Python and here. -/
def parseFloat? (l : List Char) : Option ℚ :=
  match l with
  | '-' :: r => (parseUnsigned? r).map (fun q => -q)
  | '+' :: r => parseUnsigned? r
  | _ => parseUnsigned? l

example : parseFloat? (chars "84") = some 84 := by decide
example : parseFloat? (chars "-118") = some (-118) := by decide
example : parseFloat? (chars "2.5") = some (5 / 2) := by with_unfolding_all decide
example : parseFloat? (chars "") = none := by decide
example : parseFloat? (chars "to") = none := by decide

/-! ## `_parse_energy` -/

/-- Model of `FilenameParser._parse_energy`: strip a (case-variant)
`keV` / `eV` suffix, `float()` the remainder, normalize the unit to
`eV`, multiplying kilo values by 1000.  `none` models an uncaught
`ValueError` from `float()`. -/
def parse_energy (l : List Char) : Option (ℚ × String) :=
  if endsWithL l (chars "keV") || endsWithL l (chars "kEV") ||
     endsWithL l (chars "KEV") || endsWithL l (chars "KeV") then
    (parseFloat? (l.take (l.length - 3))).map (fun v => (v * 1000, "eV"))
  else if endsWithL l (chars "eV") || endsWithL l (chars "EV") then
    (parseFloat? (l.take (l.length - 2))).map (fun v => (v, "eV"))
  else
    (parseFloat? l).map (fun v => (v, "eV"))

example : parse_energy (chars "1000eV") = some (1000, "eV") := by decide

/-! ## `_parse_angle` -/

/-- Here `str.split("to")`, specialised to the separator `"to"` exactly as
Python splits (leftmost, non-overlapping). -/
def splitOnTo : List Char → List (List Char)
  | [] => [[]]
  | [c] => [[c]]
  | c1 :: c2 :: rest =>
    if c1 = 't' ∧ c2 = 'o' then [] :: splitOnTo rest
    else
      match splitOnTo (c2 :: rest) with
      | [] => [[c1]]
      | h :: t => (c1 :: h) :: t

example : splitOnTo (chars "84to-118") = [chars "84", chars "-118"] := by decide
example : splitOnTo (chars "62") = [chars "62"] := by decide

/-- Model of `FilenameParser._parse_angle`.  A `"to"`-joined pair parses to
the `(min, max)` range; a bare token parses to a single value.  The
source's `except ValueError` branch references an undefined `logger`
name and would raise `NameError`; a failing `float()` there (or in the
`len(parts) != 2` fallback, where it is uncaught) is modelled as `none`. -/
def parse_angle (l : List Char) : Option (Sum ℚ (ℚ × ℚ)) :=
  match splitOnTo l with
  | [a, b] =>
    match parseFloat? a, parseFloat? b with
    | some x, some y => some (Sum.inr (min x y, max x y))
    | _, _ => none
  | [_] => (parseFloat? l).map Sum.inl
  | parts => (parseFloat? (parts.headD [])).map Sum.inl

example : parse_angle (chars "84to-118") = some (Sum.inr (-118, 84)) := by decide
example : parse_angle (chars "62") = some (Sum.inl 62) := by decide

/-! ## Token parsers for the typed capture groups

Each parser consumes a prefix of the input and returns the captured
token together with the remaining input, with the same greedy semantics
as the corresponding regex fragment. -/

/-- Literal token: `lit pre l` consumes the literal `pre`. -/
def lit : List Char → List Char → Option (List Char)
  | [], l => some l
  | _ :: _, [] => none
  | p :: ps, c :: cs => if c = p then lit ps cs else none

/-- Here `\d+` (greedy). -/
def digitsTok (l : List Char) : Option (List Char × List Char) :=
  let d := l.takeWhile Char.isDigit
  if d = [] then none else some (d, l.dropWhile Char.isDigit)

/-- Here `\s+` (greedy). -/
def spaces1 (l : List Char) : Option (List Char) :=
  let d := l.takeWhile isSpaceCh
  if d = [] then none else some (l.dropWhile isSpaceCh)

/-- Here `-?\d+`. -/
def signedIntTok (l : List Char) : Option (List Char × List Char) :=
  match l with
  | '-' :: r => (digitsTok r).map (fun p => ('-' :: p.1, p.2))
  | _ => digitsTok l

/-- Here `\d+(?:\.\d+)?` (greedy; the fractional part is taken when present). -/
def decimalTok (l : List Char) : Option (List Char × List Char) :=
  match digitsTok l with
  | none => none
  | some (d, r) =>
    match r with
    | '.' :: r2 =>
      match digitsTok r2 with
      | some (f, r3) => some (d ++ '.' :: f, r3)
      | none => some (d, r)
    | _ => some (d, r)

/-- Here `-?\d+(?:\.\d+)?`. -/
def signedDecTok (l : List Char) : Option (List Char × List Char) :=
  match l with
  | '-' :: r => (decimalTok r).map (fun p => ('-' :: p.1, p.2))
  | _ => decimalTok l

/-- Here `-?\d+(?:to-?\d+)?`: the inner-angle group, either a signed integer
or a `"to"`-joined pair of signed integers (greedy optional part). -/
def angleTok (l : List Char) : Option (List Char × List Char) :=
  match signedIntTok l with
  | none => none
  | some (a, r) =>
    match r with
    | 't' :: 'o' :: r2 =>
      match signedIntTok r2 with
      | some (b, r3) => some (a ++ 't' :: 'o' :: b, r3)
      | none => some (a, r)
    | _ => some (a, r)

/-- Here `\d+(?:\.\d+)?(?:k)?eV`: energy token of the `detailed`,
`simple_energy` and `rotating` grammars (lower-case unit only).
Backtracking over the optional `k` is resolved exactly as the regex
engine does: the `k` branch requires a following `eV`, and when the next
character is `k` the no-`k` branch cannot match `eV`. -/
def energyTokL (l : List Char) : Option (List Char × List Char) :=
  match decimalTok l with
  | none => none
  | some (d, r) =>
    match r with
    | 'k' :: 'e' :: 'V' :: r3 => some (d ++ ['k', 'e', 'V'], r3)
    | 'e' :: 'V' :: r3 => some (d ++ ['e', 'V'], r3)
    | _ => none

/-- Here `[eE]V`. -/
def evTok (l : List Char) : Option (List Char × List Char) :=
  match l with
  | 'e' :: 'V' :: r => some (['e', 'V'], r)
  | 'E' :: 'V' :: r => some (['E', 'V'], r)
  | _ => none

/-- Here `\d+(?:\.\d+)?[kK]?[eE]V`: energy token of the `voltage_energy` and
`beam_prep` grammars (case-variant kilo prefix and unit). -/
def energyTokC (l : List Char) : Option (List Char × List Char) :=
  match decimalTok l with
  | none => none
  | some (d, r) =>
    match r with
    | 'k' :: r2 => (evTok r2).map (fun p => (d ++ 'k' :: p.1, p.2))
    | 'K' :: r2 => (evTok r2).map (fun p => (d ++ 'K' :: p.1, p.2))
    | _ => (evTok r).map (fun p => (d ++ p.1, p.2))

/-- Here `\w+` (greedy). -/
def wordTok (l : List Char) : Option (List Char × List Char) :=
  let d := l.takeWhile isWordCh
  if d = [] then none else some (d, l.dropWhile isWordCh)

/-- Here `\d{6}`: exactly six digits (more digits simply leave the rest). -/
def exact6Digits (l : List Char) : Option (List Char × List Char) :=
  let d := l.take 6
  if d.length = 6 ∧ d.all Char.isDigit then some (d, l.drop 6) else none

/-- Here `\d{8}`. -/
def exact8Digits (l : List Char) : Option (List Char × List Char) :=
  let d := l.take 8
  if d.length = 8 ∧ d.all Char.isDigit then some (d, l.drop 8) else none

/-- Here `\d{6}-\d{6}`: the compact timestamp token. -/
def timestampTok (l : List Char) : Option (List Char × List Char) :=
  match exact6Digits l with
  | some (a, '-' :: r2) =>
    (exact6Digits r2).map (fun p => (a ++ '-' :: p.1, p.2))
  | _ => none

/-- Here `(?P<timestamp>\d{6}-\d{6})?` at the end of a pattern: the captured
token when it matches, `none` (group unset) otherwise. -/
def tsOpt (l : List Char) : Option (List Char) :=
  (timestampTok l).map Prod.fst

/-! ## Backtracking for `+`-classes followed by more pattern

`classSplits cls l` lists every nonempty candidate split of a greedy
`[cls]+` capture, longest first — the order in which a backtracking
regex engine tries them.  `firstSome` feeds them to the continuation. -/

/-- Candidate (token, rest) splits for `[cls]+`, longest first. -/
def classSplits (cls : Char → Bool) (l : List Char) : List (List Char × List Char) :=
  let d := l.takeWhile cls
  let r := l.dropWhile cls
  (List.range d.length).map (fun i => (d.take (d.length - i), d.drop (d.length - i) ++ r))

/-- First success of `f` along `l` (backtracking search). -/
def firstSome {α β : Type} : List α → (α → Option β) → Option β
  | [], _ => none
  | a :: t, f =>
    match f a with
    | some b => some b
    | none => firstSome t f

/-! ## The named grammars of `FilenameParser.patterns` -/

/-- The capture groups a grammar can set (the union over all seven
grammars; each matcher sets the groups its regex defines). -/
structure Groups where
  beam_energy : Option (List Char) := none
  esa_voltage : Option (List Char) := none
  mcp_voltage : Option (List Char) := none
  mcp_extra : Option (List Char) := none
  inner_angle : Option (List Char) := none
  hor_value : Option (List Char) := none
  focus_x : Option (List Char) := none
  focus_y : Option (List Char) := none
  offset_x : Option (List Char) := none
  offset_y : Option (List Char) := none
  wave_type : Option (List Char) := none
  timestamp : Option (List Char) := none
  sequence : Option (List Char) := none
  date : Option (List Char) := none
deriving DecidableEq

/-- The common tail of the `detailed` and `rotating` grammars:
`Beam-<energy>_Focus-X-<tok>-Y-<tok>_Offset-X-<tok>_Y-<tok>_Wave-<w>_`
`ESA-<signed decimal>_MCP-<decimal>-<digits>` followed by an optional
timestamp.  (Since `\d+` for `mcp_extra` is greedy, a following
timestamp can never match — exactly as in the source regex.) -/
def matchBeamTail (l : List Char) : Option Groups :=
  (lit (chars "Beam-") l).bind fun l1 =>
  (energyTokL l1).bind fun p1 =>
  (lit (chars "_Focus-X-") p1.2).bind fun l3 =>
  firstSome (classSplits isTokCh l3) fun q1 =>
  (lit (chars "-Y-") q1.2).bind fun l5 =>
  firstSome (classSplits isTokCh l5) fun q2 =>
  (lit (chars "_Offset-X-") q2.2).bind fun l7 =>
  firstSome (classSplits isTokCh l7) fun q3 =>
  (lit (chars "_Y-") q3.2).bind fun l9 =>
  firstSome (classSplits isTokCh l9) fun q4 =>
  (lit (chars "_Wave-") q4.2).bind fun l11 =>
  firstSome (classSplits isWordCh l11) fun q5 =>
  (lit (chars "_ESA-") q5.2).bind fun l13 =>
  (signedDecTok l13).bind fun p6 =>
  (lit (chars "_MCP-") p6.2).bind fun l15 =>
  (decimalTok l15).bind fun p7 =>
  (lit (chars "-") p7.2).bind fun l17 =>
  (digitsTok l17).bind fun p8 =>
  some { beam_energy := some p1.1, focus_x := some q1.1, focus_y := some q2.1,
         offset_x := some q3.1, offset_y := some q4.1, wave_type := some q5.1,
         esa_voltage := some p6.1, mcp_voltage := some p7.1,
         mcp_extra := some p8.1, timestamp := tsOpt p8.2 }

/-- Grammar `detailed` (match at the start of the input). -/
def matchDetailedAt (l : List Char) : Option Groups :=
  (lit (chars "ACI_ESA-Inner-") l).bind fun l1 =>
  (angleTok l1).bind fun p1 =>
  (lit (chars "-Hor") p1.2).bind fun l3 =>
  (digitsTok l3).bind fun p2 =>
  (lit (chars "_") p2.2).bind fun l5 =>
  (matchBeamTail l5).map fun g =>
  { g with inner_angle := some p1.1, hor_value := some p2.1 }

/-- Grammar `simple_energy`. -/
def matchSimpleEnergyAt (l : List Char) : Option Groups :=
  (lit (chars "ACI") l).bind fun l1 =>
  (spaces1 l1).bind fun l2 =>
  (lit (chars "ESA") l2).bind fun l3 =>
  (spaces1 l3).bind fun l4 =>
  (energyTokL l4).map fun p =>
  { beam_energy := some p.1, timestamp := tsOpt p.2 }

/-- Grammar `voltage_energy`. -/
def matchVoltageEnergyAt (l : List Char) : Option Groups :=
  (lit (chars "ACI") l).bind fun l1 =>
  (spaces1 l1).bind fun l2 =>
  (lit (chars "ESA") l2).bind fun l3 =>
  (spaces1 l3).bind fun l4 =>
  (digitsTok l4).bind fun p1 =>
  (lit (chars "V") p1.2).bind fun l5 =>
  (spaces1 l5).bind fun l6 =>
  (energyTokC l6).bind fun p2 =>
  (spaces1 p2.2).bind fun l7 =>
  (lit (chars "BEAM") l7).map fun l8 =>
  { esa_voltage := some p1.1, beam_energy := some p2.1, timestamp := tsOpt l8 }

/-- Grammar `beam_prep`. -/
def matchBeamPrepAt (l : List Char) : Option Groups :=
  (lit (chars "ACI") l).bind fun l1 =>
  (spaces1 l1).bind fun l2 =>
  (lit (chars "ESA") l2).bind fun l3 =>
  (spaces1 l3).bind fun l4 =>
  (energyTokC l4).bind fun p1 =>
  (spaces1 p1.2).bind fun l5 =>
  (lit (chars "BEAM") l5).bind fun l6 =>
  (spaces1 l6).bind fun l7 =>
  (lit (chars "PREP") l7).map fun l8 =>
  { beam_energy := some p1.1, timestamp := tsOpt l8 }

/-- Optional piece: apply `f`; on failure consume nothing.  (All the
optional pieces of the `ramp_up` and `dark` grammars are followed only
by further optional pieces, so a committed greedy choice is exactly the
regex engine's behaviour: a failure inside an optional group just skips
the group, and no later mandatory atom can force backtracking.) -/
def optPiece {α : Type} (f : List Char → Option (α × List Char)) (l : List Char) :
    Option α × List Char :=
  match f l with
  | some (a, r) => (some a, r)
  | none => (none, l)

/-- Grammar `ramp_up`:
`ACI\s+(?:ESA\s+)?RAMP\s+UP(?:\s+(?P<sequence>\w+\d*))?`
`(?:\s+(?P<date>\d{8}))?(?:\s+ESA\s+(?P<esa_voltage>\d+)V)?(ts)?`.
(`\w+\d*` captures the same token as `\w+`: digits are word characters,
so the greedy `\w+` already took them all.) -/
def matchRampUpAt (l : List Char) : Option Groups :=
  (lit (chars "ACI") l).bind fun l1 =>
  (spaces1 l1).bind fun l2 =>
  let l3 :=
    match (lit (chars "ESA") l2).bind spaces1 with
    | some r => r
    | none => l2
  (lit (chars "RAMP") l3).bind fun l4 =>
  (spaces1 l4).bind fun l5 =>
  (lit (chars "UP") l5).map fun l6 =>
  let s1 := optPiece (fun r => (spaces1 r).bind wordTok) l6
  let s2 := optPiece (fun r => (spaces1 r).bind exact8Digits) s1.2
  let s3 := optPiece
    (fun r => (spaces1 r).bind fun r1 =>
      (lit (chars "ESA") r1).bind fun r2 =>
      (spaces1 r2).bind fun r3 =>
      (digitsTok r3).bind fun p =>
      (lit (chars "V") p.2).map fun r4 => (p.1, r4)) s2.2
  { sequence := s1.1, date := s2.1, esa_voltage := s3.1, timestamp := tsOpt s3.2 }

/-- Grammar `dark`:
`ACI\s+ESA\s+Dark\s+(?P<date>\d{6})(?:\.fits)?(ts)?`. -/
def matchDarkAt (l : List Char) : Option Groups :=
  (lit (chars "ACI") l).bind fun l1 =>
  (spaces1 l1).bind fun l2 =>
  (lit (chars "ESA") l2).bind fun l3 =>
  (spaces1 l3).bind fun l4 =>
  (lit (chars "Dark") l4).bind fun l5 =>
  (spaces1 l5).bind fun l6 =>
  (exact6Digits l6).map fun p =>
  let l7 :=
    match lit (chars ".fits") p.2 with
    | some r => r
    | none => p.2
  { date := some p.1, timestamp := tsOpt l7 }

/-- Grammar `rotating`:
`ACI_ESA_Rotating(?P<sequence>\d+)?_` followed by the common beam tail. -/
def matchRotatingAt (l : List Char) : Option Groups :=
  (lit (chars "ACI_ESA_Rotating") l).bind fun l1 =>
  let s1 := optPiece digitsTok l1
  (lit (chars "_") s1.2).bind fun l3 =>
  (matchBeamTail l3).map fun g => { g with sequence := s1.1 }

/-- Here `re.search`: try the matcher at every start position, leftmost match
wins. -/
def searchPat (m : List Char → Option Groups) : List Char → Option Groups
  | [] => m []
  | l@(_ :: t) =>
    match m l with
    | some g => some g
    | none => searchPat m t

/-- The ordered grammar dispatch of `parse_filename`: each pattern in
the insertion order of `FilenameParser.patterns` is `search`ed in turn;
the first pattern with a match anywhere wins. -/
def tryPatterns (l : List Char) : Option (String × Groups) :=
  match searchPat matchDetailedAt l with
  | some g => some ("detailed", g)
  | none =>
  match searchPat matchSimpleEnergyAt l with
  | some g => some ("simple_energy", g)
  | none =>
  match searchPat matchVoltageEnergyAt l with
  | some g => some ("voltage_energy", g)
  | none =>
  match searchPat matchBeamPrepAt l with
  | some g => some ("beam_prep", g)
  | none =>
  match searchPat matchRampUpAt l with
  | some g => some ("ramp_up", g)
  | none =>
  match searchPat matchDarkAt l with
  | some g => some ("dark", g)
  | none =>
  match searchPat matchRotatingAt l with
  | some g => some ("rotating", g)
  | none => none

/-! ## The ParameterRecord (`ExperimentalParameters`) and extraction -/

/-- Calendar value produced by `datetime.strptime`. -/
structure DateTimeQ where
  year : ℕ
  month : ℕ
  day : ℕ
  hour : ℕ
  minute : ℕ
  second : ℕ
deriving DecidableEq

/-- Days in a month (Gregorian; `strptime` validates the day against it). -/
def daysInMonth (year month : ℕ) : ℕ :=
  if month = 2 then
    if year % 4 = 0 ∧ (year % 100 ≠ 0 ∨ year % 400 = 0) then 29 else 28
  else if month = 4 ∨ month = 6 ∨ month = 9 ∨ month = 11 then 30
  else 31

/-- Model of `FilenameParser._parse_timestamp`: `strptime` with format
`%y%m%d-%H%M%S`; `%y` maps 00–68 to 2000–2068 and 69–99 to 1969–1999;
out-of-range fields raise `ValueError`, which the source catches and
turns into `None`. -/
def parse_timestamp (l : List Char) : Option DateTimeQ :=
  match l with
  | [y1, y2, m1, m2, d1, d2, '-', h1, h2, n1, n2, s1, s2] =>
    if [y1, y2, m1, m2, d1, d2, h1, h2, n1, n2, s1, s2].all Char.isDigit then
      let yy := 10 * digitVal y1 + digitVal y2
      let year := if yy ≤ 68 then 2000 + yy else 1900 + yy
      let month := 10 * digitVal m1 + digitVal m2
      let day := 10 * digitVal d1 + digitVal d2
      let hour := 10 * digitVal h1 + digitVal h2
      let minute := 10 * digitVal n1 + digitVal n2
      let second := 10 * digitVal s1 + digitVal s2
      if 1 ≤ month ∧ month ≤ 12 ∧ 1 ≤ day ∧ day ≤ daysInMonth year month ∧
         hour ≤ 23 ∧ minute ≤ 59 ∧ second ≤ 61 then
        some ⟨year, month, day, hour, minute, second⟩
      else none
    else none
  | _ => none

/-- The `ExperimentalParameters` dataclass. -/
structure ExperimentalParameters where
  filename : String
  file_type : String
  base_name : String
  beam_energy : Option String := none
  beam_energy_value : Option ℚ := none
  beam_energy_unit : Option String := none
  esa_voltage : Option String := none
  esa_voltage_value : Option ℚ := none
  mcp_voltage : Option String := none
  mcp_voltage_value : Option ℚ := none
  inner_angle : Option String := none
  inner_angle_value : Option ℚ := none
  inner_angle_range : Option (ℚ × ℚ) := none
  is_angle_range : Bool := false
  horizontal_value : Option String := none
  horizontal_value_num : Option ℚ := none
  focus_x : Option String := none
  focus_y : Option String := none
  offset_x : Option String := none
  offset_y : Option String := none
  wave_type : Option String := none
  timestamp : Option String := none
  datetime_obj : Option DateTimeQ := none
  is_dark : Bool := false
  is_ramp : Bool := false
  is_rotating : Bool := false
  test_type : Option String := none
  sequence_info : Option String := none
deriving DecidableEq

/-- Python truthiness of an optional capture-group string
(`groups['x']` is falsy when the group is unset or empty). -/
def groupTruthy (o : Option (List Char)) : Bool :=
  match o with
  | none => false
  | some t => ¬ t = []

/-- Beam-energy step of `_extract_parameters_from_match`: store the raw
token and the `_parse_energy` value/unit; `none` models the uncaught
`ValueError` when `float()` fails. -/
def applyEnergy (g : Groups) (p : ExperimentalParameters) :
    Option ExperimentalParameters :=
  match g.beam_energy with
  | some t =>
    if t = [] then some p
    else
      (parse_energy t).map fun vu =>
        { p with beam_energy := some (strOf t), beam_energy_value := some vu.1,
                 beam_energy_unit := some vu.2 }
  | none => some p

/-- ESA-voltage step: `float(groups['esa_voltage'])`. -/
def applyEsa (g : Groups) (p : ExperimentalParameters) :
    Option ExperimentalParameters :=
  match g.esa_voltage with
  | some t =>
    if t = [] then some p
    else
      (parseFloat? t).map fun v =>
        { p with esa_voltage := some (strOf t), esa_voltage_value := some v }
  | none => some p

/-- MCP-voltage step. -/
def applyMcp (g : Groups) (p : ExperimentalParameters) :
    Option ExperimentalParameters :=
  match g.mcp_voltage with
  | some t =>
    if t = [] then some p
    else
      (parseFloat? t).map fun v =>
        { p with mcp_voltage := some (strOf t), mcp_voltage_value := some v }
  | none => some p

/-- Inner-angle step: `_parse_angle`, storing either the range (with the
midpoint as the representative value and the range flag set) or the
single value. -/
def applyAngle (g : Groups) (p : ExperimentalParameters) :
    Option ExperimentalParameters :=
  match g.inner_angle with
  | some t =>
    if t = [] then some p
    else
      (parse_angle t).map fun r =>
        match r with
        | Sum.inl v =>
          { p with inner_angle := some (strOf t), inner_angle_value := some v,
                   is_angle_range := false }
        | Sum.inr ab =>
          { p with inner_angle := some (strOf t), inner_angle_range := some ab,
                   inner_angle_value := some ((ab.1 + ab.2) / 2),
                   is_angle_range := true }
  | none => some p

/-- Horizontal-value step. -/
def applyHor (g : Groups) (p : ExperimentalParameters) :
    Option ExperimentalParameters :=
  match g.hor_value with
  | some t =>
    if t = [] then some p
    else
      (parseFloat? t).map fun v =>
        { p with horizontal_value := some (strOf t), horizontal_value_num := some v }
  | none => some p

/-- Optional string field, kept only when truthy. -/
def strField (o : Option (List Char)) (old : Option String) : Option String :=
  match o with
  | some t => if t = [] then old else some (strOf t)
  | none => old

/-- The remaining (never-failing) extraction steps: focus/offset tokens,
wave type, timestamp (with `_parse_timestamp`), sequence info, and the
pattern-derived flags. -/
def applyRest (g : Groups) (nm : String) (p : ExperimentalParameters) :
    ExperimentalParameters :=
  let p1 :=
    { p with focus_x := strField g.focus_x p.focus_x,
             focus_y := strField g.focus_y p.focus_y,
             offset_x := strField g.offset_x p.offset_x,
             offset_y := strField g.offset_y p.offset_y,
             wave_type := strField g.wave_type p.wave_type }
  let p2 :=
    match g.timestamp with
    | some t =>
      if t = [] then p1
      else { p1 with timestamp := some (strOf t), datetime_obj := parse_timestamp t }
    | none => p1
  let p3 :=
    match g.sequence with
    | some t => if t = [] then p2 else { p2 with sequence_info := some (strOf t) }
    | none => p2
  if nm = "dark" then { p3 with is_dark := true }
  else if nm = "ramp_up" then { p3 with is_ramp := true }
  else if nm = "rotating" then { p3 with is_rotating := true }
  else p3

/-- Here `_extract_parameters_from_match` (the full step sequence, in source
order). -/
def extract_params (g : Groups) (nm : String) (p : ExperimentalParameters) :
    Option ExperimentalParameters :=
  (applyEnergy g p).bind fun p1 =>
  (applyEsa g p1).bind fun p2 =>
  (applyMcp g p2).bind fun p3 =>
  (applyAngle g p3).bind fun p4 =>
  (applyHor g p4).map fun p5 =>
  applyRest g nm p5

/-- Here `_post_process_parameters`: derive `test_type` from the flags and
the (truthy) presence of the raw energy / voltage tokens. -/
def deriveTestType (p : ExperimentalParameters) : Option String :=
  if p.is_dark then some "dark"
  else if p.is_ramp then some "ramp_up"
  else if p.is_rotating then some "rotating"
  else if strTruthy p.beam_energy ∧ strTruthy p.esa_voltage then some "voltage_sweep"
  else if strTruthy p.beam_energy then some "energy_test"
  else some "unknown"
where
  /-- Python truthiness of an optional string field. -/
  strTruthy (o : Option String) : Bool :=
    match o with
    | none => false
    | some s => ¬ s = ""

/-- Here `_post_process_parameters` as a record transformation. -/
def post_process (p : ExperimentalParameters) : ExperimentalParameters :=
  { p with test_type := deriveTestType p }

/-- Here `os.path.basename` (POSIX separator). -/
def afterLastSlash (l : List Char) : List Char :=
  l.foldl (fun acc c => if c = '/' then [] else acc ++ [c]) []

/-- Here `_get_file_type`. -/
def get_file_type (base : List Char) : String :=
  if endsWithL base (chars ".fits") then "fits"
  else if endsWithL base (chars ".map") then "map"
  else if endsWithL base (chars ".phd") then "phd"
  else "unknown"

/-- Here `_clean_filename_for_parsing`: strip the known (possibly compound)
extensions once, in source order. -/
def clean_filename (base : List Char) : List Char :=
  if endsWithL base (chars ".fits.map") then base.take (base.length - 9)
  else if endsWithL base (chars ".fits.phd") then base.take (base.length - 9)
  else if endsWithL base (chars ".fits") then base.take (base.length - 5)
  else if endsWithL base (chars ".map") then base.take (base.length - 4)
  else if endsWithL base (chars ".phd") then base.take (base.length - 4)
  else base

/-- The grammar-dispatch input of `parse_filename s`. -/
def nameForParsing (s : String) : List Char :=
  clean_filename (afterLastSlash (chars s))

/-- The freshly-initialised record of `parse_filename` before any
pattern matching. -/
def initParams (s : String) : ExperimentalParameters :=
  { filename := s, file_type := get_file_type (afterLastSlash (chars s)),
    base_name := strOf (afterLastSlash (chars s)) }

/-- Here `FilenameParser.parse_filename` (and the module-level `parse_filename`
convenience wrapper): basename, file-kind detection, extension
stripping, ordered grammar dispatch, parameter extraction, and
post-processing.  `none` models an uncaught exception escaping the
call (the claims below prove this never happens). -/
def parse_filename (s : String) : Option ExperimentalParameters :=
  match tryPatterns (nameForParsing s) with
  | some (nm, g) => (extract_params g nm (initParams s)).map post_process
  | none => some (post_process (initParams s))

/-! ## Entity catalog (`data_model.py`) : grouping and comparison sets -/

/-- A dynamically-typed attribute value, as `getattr(file.parameters, name)`
returns it.  Within one parameter name all files carry the same
constructor, mirroring the homogeneous field types of the dataclass. -/
inductive AttrVal where
  | num (q : ℚ)
  | str (s : String)
  | bool (b : Bool)
  | range (a b : ℚ)
  | dt (d : DateTimeQ)
deriving DecidableEq

/-- Here `getattr(params, name, None)`: `None`-valued fields and unknown
names both give `none`. -/
def getAttr (p : ExperimentalParameters) (name : String) : Option AttrVal :=
  if name = "filename" then some (.str p.filename)
  else if name = "file_type" then some (.str p.file_type)
  else if name = "base_name" then some (.str p.base_name)
  else if name = "beam_energy" then p.beam_energy.map .str
  else if name = "beam_energy_value" then p.beam_energy_value.map .num
  else if name = "beam_energy_unit" then p.beam_energy_unit.map .str
  else if name = "esa_voltage" then p.esa_voltage.map .str
  else if name = "esa_voltage_value" then p.esa_voltage_value.map .num
  else if name = "mcp_voltage" then p.mcp_voltage.map .str
  else if name = "mcp_voltage_value" then p.mcp_voltage_value.map .num
  else if name = "inner_angle" then p.inner_angle.map .str
  else if name = "inner_angle_value" then p.inner_angle_value.map .num
  else if name = "inner_angle_range" then p.inner_angle_range.map (fun ab => .range ab.1 ab.2)
  else if name = "is_angle_range" then some (.bool p.is_angle_range)
  else if name = "horizontal_value" then p.horizontal_value.map .str
  else if name = "horizontal_value_num" then p.horizontal_value_num.map .num
  else if name = "focus_x" then p.focus_x.map .str
  else if name = "focus_y" then p.focus_y.map .str
  else if name = "offset_x" then p.offset_x.map .str
  else if name = "offset_y" then p.offset_y.map .str
  else if name = "wave_type" then p.wave_type.map .str
  else if name = "timestamp" then p.timestamp.map .str
  else if name = "datetime_obj" then p.datetime_obj.map .dt
  else if name = "is_dark" then some (.bool p.is_dark)
  else if name = "is_ramp" then some (.bool p.is_ramp)
  else if name = "is_rotating" then some (.bool p.is_rotating)
  else if name = "test_type" then p.test_type.map .str
  else if name = "sequence_info" then p.sequence_info.map .str
  else none

/-- Rendering of an attribute value into the string grouping key
(Python `str(value)`; the numeric rendering is an injective stand-in for
Python's float formatting — grouping only compares keys for equality). -/
def renderAttr : AttrVal → String
  | .num q => toString q.num ++ "r" ++ toString q.den
  | .str s => s
  | .bool b => if b then "True" else "False"
  | .range a b => "(" ++ toString a.num ++ "r" ++ toString a.den ++ ", " ++
      toString b.num ++ "r" ++ toString b.den ++ ")"
  | .dt d => toString d.year ++ "-" ++ toString d.month ++ "-" ++ toString d.day

/-- The key component for one parameter: `f"{param}_{value}"`, with the
literal `"None"` for an absent value. -/
def renderOptAttr : Option AttrVal → String
  | none => "None"
  | some v => renderAttr v

/-- Lexicographic comparison of character lists (for `sorted`). -/
def charsLe : List Char → List Char → Bool
  | [], _ => true
  | _ :: _, [] => false
  | a :: as_, b :: bs => if a = b then charsLe as_ bs else a.toNat ≤ b.toNat

/-- A total comparison on attribute values backing Python's `sorted`
(heterogeneous lists would raise in Python; per-parameter lists are
homogeneous, so only the same-constructor cases ever apply). -/
def attrLe (x y : AttrVal) : Bool :=
  match x, y with
  | .num a, .num b => a ≤ b
  | .num _, _ => true
  | _, .num _ => false
  | .str a, .str b => charsLe (chars a) (chars b)
  | .str _, _ => true
  | _, .str _ => false
  | .bool a, .bool b => !a || b
  | .bool _, _ => true
  | _, .bool _ => false
  | .range a b, .range c d => if a = c then b ≤ d else a ≤ c
  | .range _ _, _ => true
  | _, .range _ _ => false
  | .dt a, .dt b =>
    charsLe (chars (toString a.year ++ "-" ++ toString a.month)) (chars (toString b.year ++ "-" ++ toString b.month))

/-- Insertion into a sorted list. -/
def insertLe {α : Type} (le : α → α → Bool) (a : α) : List α → List α
  | [] => [a]
  | b :: t => if le a b then a :: b :: t else b :: insertLe le a t

/-- Insertion sort (`sorted`). -/
def sortLe {α : Type} (le : α → α → Bool) : List α → List α
  | [] => []
  | a :: t => insertLe le a (sortLe le t)

/-- A `DataFile` entity: path, parsed parameters, file-kind tag.  (The
lazily-loaded content and error flags play no role in the grouping
operations modelled here.) -/
structure DataFile where
  filepath : String
  parameters : ExperimentalParameters
  file_type : String
deriving DecidableEq

/-- An `ExperimentGroup`. -/
structure ExperimentGroup where
  name : String
  description : String
  files : List DataFile := []
  common_parameters : List (String × Option AttrVal) := []
  varying_parameters : List String := []
deriving DecidableEq

/-- Here `ExperimentGroup.get_parameter_values`: the sorted distinct non-`None`
values of one parameter over the group's files. -/
def get_parameter_values (g : ExperimentGroup) (parameter : String) : List AttrVal :=
  sortLe attrLe ((g.files.filterMap (fun f => getAttr f.parameters parameter)).dedup)

/-- Append a file under its key in the insertion-ordered group table
(`groups[key].add_file(file)` with creation on first sight). -/
def assocAdd (table : List (String × ExperimentGroup)) (key : String)
    (mk : ExperimentGroup) (f : DataFile) : List (String × ExperimentGroup) :=
  match table with
  | [] => [(key, { mk with files := [f] })]
  | (k, g) :: t =>
    if k = key then (k, { g with files := g.files ++ [f] }) :: t
    else (k, g) :: assocAdd t key mk f

/-- Here `DataManager.group_files_by_multiple_parameters`: build the composite
key over all named parameters (absence renders as `"None"` and is a
distinct key component), collect files per key in first-seen order, and
drop groups smaller than `min_group_size`. -/
def group_files_by_multiple_parameters (files : List DataFile)
    (parameters : List String) (min_group_size : ℕ) : List ExperimentGroup :=
  let step := fun (table : List (String × ExperimentGroup)) (f : DataFile) =>
    let key_parts := parameters.map
      (fun prm => prm ++ "_" ++ renderOptAttr (getAttr f.parameters prm))
    let param_dict := parameters.map (fun prm => (prm, getAttr f.parameters prm))
    if key_parts = [] then table
    else
      let key := String.intercalate "_" key_parts
      let desc := "Files with " ++ String.intercalate ", "
        (param_dict.map (fun pv => pv.1 ++ "=" ++ renderOptAttr pv.2))
      assocAdd table key
        { name := key, description := desc, common_parameters := param_dict } f
  ((files.foldl step []).map Prod.snd).filter (fun g => min_group_size ≤ g.files.length)

/-- Here `DataManager.find_comparison_sets`: group by the fixed parameters
(minimum size 2), then keep only groups observing at least two distinct
values of the varying parameter, tagging `varying_parameters`. -/
def find_comparison_sets (files : List DataFile) (fixed_parameters : List String)
    (varying_parameter : String) : List ExperimentGroup :=
  let comparison_groups := group_files_by_multiple_parameters files fixed_parameters 2
  comparison_groups.filterMap fun g =>
    let varying_values := get_parameter_values g varying_parameter
    if 1 < varying_values.length then
      some { g with varying_parameters := [varying_parameter],
                    description := g.description ++ ", varying " ++ varying_parameter }
    else none

/-! ## Impact Region Detector (`esa_analysis.py`) -/

/-- Here `np.max` over the elements of a (nonempty) array.  `np.max` raises on
an empty array; the loader never produces one, and the detector below
returns "absent" for the empty list under this definition (its maximum
`0` fails the positivity guard). -/
def maxQ : List ℚ → ℚ
  | [] => 0
  | h :: t => t.foldl max h

/-- Here `np.min` over a nonempty list. -/
def minQ : List ℚ → ℚ
  | [] => 0
  | h :: t => t.foldl min h

/-- Minimum over a nonempty list of coordinates. -/
def minN : List ℕ → ℕ
  | [] => 0
  | h :: t => t.foldl min h

/-- Maximum over a nonempty list of coordinates. -/
def maxN : List ℕ → ℕ
  | [] => 0
  | h :: t => t.foldl max h

/-- Sum of a list of rationals (`np.sum`). -/
def sumQ (l : List ℚ) : ℚ := l.foldr (fun a b => a + b) 0

/-- Here `np.mean` (the empty case, `NaN` in numpy, is modelled as `0`; the
theorems below only apply it to nonempty lists). -/
def meanQ (l : List ℚ) : ℚ := sumQ l / (l.length : ℚ)

/-- Here `np.var`: mean squared deviation (so `np.std` is its square
root).  On the empty list numpy returns NaN; Lean's `0 / 0 = 0` makes
this definition return `0` there, so every use on a possibly-empty list
must carry the length separately (see `ImpactRegion.noise_count`) — the
estimator only applies it to a nonempty k-factor list. -/
def varQ (l : List ℚ) : ℚ :=
  sumQ (l.map (fun x => (x - meanQ l) ^ 2)) / (l.length : ℚ)

/-- Here `np.average(values, weights)`. -/
def wavgQ (vals ws : List ℚ) : ℚ :=
  sumQ ((vals.zip ws).map (fun p => p.1 * p.2)) / sumQ ws

/-- The pixels of a 2D image in row-major order as `(y, x, value)`
(`np.where` enumerates flagged pixels in exactly this order). -/
def pixelList (img : List (List ℚ)) : List (ℕ × ℕ × ℚ) :=
  img.enum.flatMap (fun yr => yr.2.enum.map (fun xv => (yr.1, xv.1, xv.2)))

/-- Here `self.noise_threshold = 0.05`. -/
def noise_threshold : ℚ := 1 / 20

/-- Here `self.min_region_size = 10`. -/
def min_region_size : ℕ := 10

/-- Raw pixel values of the image. -/
def rawVals (img : List (List ℚ)) : List ℚ :=
  (pixelList img).map (fun t => t.2.2)

/-- Here `np.max(raw_data)`. -/
def maxRaw (img : List (List ℚ)) : ℚ := maxQ (rawVals img)

/-- The locally-normalized pixels `raw / max(raw)`. -/
def normalizedPixels (img : List (List ℚ)) : List (ℕ × ℕ × ℚ) :=
  (pixelList img).map (fun t => (t.1, t.2.1, t.2.2 / maxRaw img))

/-- Here `peak_value = np.max(normalized_data)`. -/
def peakValue (img : List (List ℚ)) : ℚ :=
  maxQ ((normalizedPixels img).map (fun t => t.2.2))

/-- Here `threshold = peak_value * self.noise_threshold`. -/
def thresholdOf (img : List (List ℚ)) : ℚ := peakValue img * noise_threshold

/-- The signal set: pixels strictly above the noise threshold. -/
def signalPixels (img : List (List ℚ)) : List (ℕ × ℕ × ℚ) :=
  (normalizedPixels img).filter (fun t => thresholdOf img < t.2.2)

/-- The complement (non-signal) set. -/
def noisePixels (img : List (List ℚ)) : List (ℕ × ℕ × ℚ) :=
  (normalizedPixels img).filter (fun t => ¬ thresholdOf img < t.2.2)

/-- An `ImpactRegion`.  The source stores
`signal_to_noise = mean(signal) / (std(noise) + 1e-10)` as one float;
since the standard deviation is an irrational square root, the region
stores the rational mean and variance together with the size of the
non-signal set, and `ImpactRegion.signal_to_noise?` below exposes the
derived value.  `np.std` of the *empty* non-signal slice is NaN (and the
stored float is then NaN); the embedding represents that case by
`noise_count = 0`, on which `signal_to_noise?` is `none`. -/
structure ImpactRegion where
  filename : String
  beam_energy : ℚ
  esa_voltage : ℚ
  rotation_angle : Option ℚ
  centroid_x : ℚ
  centroid_y : ℚ
  peak_intensity : ℚ
  total_intensity : ℚ
  region_area : ℕ
  min_x : ℕ
  max_x : ℕ
  min_y : ℕ
  max_y : ℕ
  signal_mean : ℚ
  noise_var : ℚ
  noise_count : ℕ
  data_density : ℚ
  rotation_angle_range : Option (ℚ × ℚ) := none
  is_angle_range : Bool := false
deriving DecidableEq

/-- Here `signal_to_noise = np.mean(signal) / (np.std(noise) + 1e-10)` with
`np.std = sqrt(np.var)`.  When the non-signal set is empty, `np.std([])`
is NaN and so is the stored float; NaN has no counterpart in `ℝ`, so the
value is exposed as an `Option` with `none` standing for NaN. -/
noncomputable def ImpactRegion.signal_to_noise? (r : ImpactRegion) : Option ℝ :=
  if r.noise_count = 0 then none
  else some ((r.signal_mean : ℝ) / (Real.sqrt (r.noise_var : ℝ) + 1 / 10000000000))

/-- Here `ESAAnalyzer._analyze_single_impact_region`, for an already-loaded
image (the file loading collaborator is outside this core): normalize by
the image maximum (empty / all-nonpositive data → absent), flag pixels
strictly above `0.05 × peak`, require at least `min_region_size` of
them, and compute the weighted centroid, bounds, intensities and quality
metrics, copying energy / voltage / angle data from the parsed
parameters (`value or 0.0` for the missing energy / voltage). -/
def analyze_single_impact_region (img : List (List ℚ))
    (params : ExperimentalParameters) (fname : String) : Option ImpactRegion :=
  if 0 < maxRaw img then
    if (signalPixels img).length < min_region_size then none
    else
      let xs : List ℕ := (signalPixels img).map (fun t => t.2.1)
      let ys : List ℕ := (signalPixels img).map (fun t => t.1)
      if xs.length = 0 then none
      else
        let weights : List ℚ := (signalPixels img).map (fun t => t.2.2)
        some { filename := fname,
               beam_energy := params.beam_energy_value.getD 0,
               esa_voltage := params.esa_voltage_value.getD 0,
               rotation_angle := params.inner_angle_value,
               rotation_angle_range := params.inner_angle_range,
               is_angle_range := params.is_angle_range,
               centroid_x := wavgQ (xs.map (fun n => (n : ℚ))) weights,
               centroid_y := wavgQ (ys.map (fun n => (n : ℚ))) weights,
               peak_intensity := peakValue img,
               total_intensity := sumQ weights,
               region_area := xs.length,
               min_x := minN xs, max_x := maxN xs,
               min_y := minN ys, max_y := maxN ys,
               signal_mean := meanQ weights,
               noise_var := varQ ((noisePixels img).map (fun t => t.2.2)),
               noise_count := (noisePixels img).length,
               data_density := (xs.length : ℚ) / ((pixelList img).length : ℚ) }
  else none

/-! ## K-Factor Estimator (`esa_analysis.py`) -/

/-- An `ESAMeasurement`. -/
structure ESAMeasurement where
  impact_region : ImpactRegion
  theoretical_deflection : ℚ
  measured_deflection : ℚ
  k_factor_estimate : Option ℚ := none
deriving DecidableEq

/-- Here `ESAAnalyzer._calculate_theoretical_deflection`: `voltage / energy`
guarded by `beam_energy > 0` (otherwise `0.0`). -/
def calculate_theoretical_deflection (beam_energy esa_voltage : ℚ) : ℚ :=
  if 0 < beam_energy then esa_voltage / beam_energy else 0

/-- Here `detector_center_x = 512` (assuming a 1024×1024 detector). -/
def detector_center_x : ℚ := 512

/-- Here `ESAMeasurement.calculate_k_factor`: when both voltage and energy
are nonzero, set `k_factor_estimate = beam_energy / |esa_voltage|`
(the method mutates the measurement; its return value is the updated
`k_factor_estimate` field). -/
def calculate_k_factor (m : ESAMeasurement) : ESAMeasurement :=
  if m.impact_region.esa_voltage ≠ 0 ∧ m.impact_region.beam_energy ≠ 0 then
    let k := m.impact_region.beam_energy / abs m.impact_region.esa_voltage
    { m with k_factor_estimate := some k }
  else m

/-- A region qualifies for a Measurement when voltage and energy are
both nonzero. -/
def qualifies (r : ImpactRegion) : Bool :=
  r.esa_voltage ≠ 0 && r.beam_energy ≠ 0

/-- The Measurement built for a qualifying region. -/
def mkMeasurement (r : ImpactRegion) : ESAMeasurement :=
  { impact_region := r,
    theoretical_deflection := calculate_theoretical_deflection r.beam_energy r.esa_voltage,
    measured_deflection := (r.centroid_x - detector_center_x) / detector_center_x }

/-- Here `np.median` of a nonempty list. -/
def medianQ (l : List ℚ) : ℚ :=
  let s := sortLe (fun a b => a ≤ b) l
  if l.length % 2 = 1 then (s.drop (l.length / 2)).headD 0
  else ((s.drop (l.length / 2 - 1)).headD 0 + (s.drop (l.length / 2)).headD 0) / 2

/-- The statistics bundle of a successful estimation.  `np.std` of the
k-factors is the square root of the stored `k_factor_var`. -/
structure KFactorResults where
  k_factor_mean : ℚ
  k_factor_var : ℚ
  k_factor_median : ℚ
  k_factor_range : ℚ × ℚ
  num_measurements : ℕ
  measurements : List ESAMeasurement
  k_factors : List ℚ
deriving DecidableEq

/-- Here `ESAAnalyzer.estimate_k_factor`: build one Measurement per region
with nonzero voltage and energy; with none, return the explicit error
value; otherwise run `calculate_k_factor` on every measurement, collect
the non-`None` k-factors (the loop mutates the measurements in place,
so the reported list carries the computed estimates) and aggregate. -/
def estimate_k_factor (regions : List ImpactRegion) :
    Except String KFactorResults :=
  let measurements0 := (regions.filter qualifies).map mkMeasurement
  if measurements0 = [] then
    Except.error "No valid measurements for k-factor estimation"
  else
    let measurements := measurements0.map calculate_k_factor
    let k_factors := measurements.filterMap (fun m => m.k_factor_estimate)
    if k_factors = [] then
      Except.error "Could not calculate any k-factors"
    else
      Except.ok
        { k_factor_mean := meanQ k_factors,
          k_factor_var := varQ k_factors,
          k_factor_median := medianQ k_factors,
          k_factor_range := (minQ k_factors, maxQ k_factors),
          num_measurements := k_factors.length,
          measurements := measurements,
          k_factors := k_factors }

/-! # Theorems settling the claims -/

/-! ## C5 : test_type derivation and idempotence -/

/-- Here `post_process` only writes `test_type`, which `deriveTestType` never
reads, so the derivation is stable. -/
theorem post_process_stable (q : ExperimentalParameters) :
    (post_process q).test_type = deriveTestType (post_process q) := rfl

/-- C5 : For every parsed record, `test_type` equals the fixed-priority
derivation (dark > ramp > rotating > voltage_sweep > energy_test >
unknown) from the record's other fields, and re-applying the derivation
to the parsed record reproduces the same classification. -/
theorem C5_test_type_idempotent (s : String) (p : ExperimentalParameters)
    (hp : parse_filename s = some p) : p.test_type = deriveTestType p := by
  unfold parse_filename at hp
  cases htp : tryPatterns (nameForParsing s) with
  | none =>
    rw [htp] at hp
    obtain rfl : post_process (initParams s) = p := by
      exact Option.some_injective _ hp
    exact post_process_stable _
  | some ng =>
    rw [htp] at hp
    obtain ⟨q, _, rfl⟩ := Option.map_eq_some'.mp hp
    exact post_process_stable _

/-- C5 witness : a concrete parsed record whose `test_type` agrees with
the re-derived classification. -/
theorem C5_witness :
    ((parse_filename "ACI ESA 1000eV240922-190315.fits").getD (initParams "x")).test_type =
      deriveTestType ((parse_filename "ACI ESA 1000eV240922-190315.fits").getD (initParams "x")) :=
  C5_test_type_idempotent "ACI ESA 1000eV240922-190315.fits" _ rfl

/-! ## Detector lemmas shared by C7, C8 and C10 -/

/-- Here `sumQ` is `List.sum`. -/
theorem sumQ_eq_sum (l : List ℚ) : sumQ l = l.sum := rfl

/-- Here `foldl max` over an all-zero list, from a zero accumulator. -/
theorem foldl_max_zero (t : List ℚ) (h : ∀ v ∈ t, v = 0) :
    List.foldl max 0 t = 0 := by
  induction t with
  | nil => rfl
  | cons b t ih =>
    have hb : b = 0 := h b (by simp)
    subst hb
    simp only [List.foldl_cons, max_self]
    exact ih (fun v hv => h v (by simp [hv]))

/-- The maximum of an all-zero list is zero. -/
theorem maxQ_of_all_zero (l : List ℚ) (h : ∀ v ∈ l, v = 0) : maxQ l = 0 := by
  cases l with
  | nil => rfl
  | cons a t =>
    have ha : a = 0 := h a (by simp)
    subst ha
    exact foldl_max_zero t (fun v hv => h v (by simp [hv]))

/-- Dividing through by a nonnegative constant commutes with the
`foldl max` accumulator. -/
theorem foldl_max_div (m : ℚ) (hm : 0 ≤ m) (a : ℚ) (t : List ℚ) :
    List.foldl max (a / m) (t.map (fun v => v / m)) = List.foldl max a t / m := by
  induction t generalizing a with
  | nil => rfl
  | cons b t ih =>
    simp only [List.map_cons, List.foldl_cons]
    rw [max_div_div_right hm, ih]

/-- Here `maxQ` of a pointwise-divided nonempty list. -/
theorem maxQ_map_div (m : ℚ) (hm : 0 ≤ m) (l : List ℚ) (hl : l ≠ []) :
    maxQ (l.map (fun v => v / m)) = maxQ l / m := by
  cases l with
  | nil => exact absurd rfl hl
  | cons a t => simpa [maxQ] using foldl_max_div m hm a t

/-- The values of the normalized pixels are the raw values divided by
the raw maximum. -/
theorem normalized_vals (img : List (List ℚ)) :
    (normalizedPixels img).map (fun t => t.2.2) =
      (rawVals img).map (fun v => v / maxRaw img) := by
  unfold normalizedPixels rawVals
  simp [List.map_map, Function.comp]

/-- When the image has a positive maximum, the normalized peak is
exactly `1`. -/
theorem peakValue_eq_one (img : List (List ℚ)) (h : 0 < maxRaw img) :
    peakValue img = 1 := by
  have hne : rawVals img ≠ [] := by
    intro he
    rw [maxRaw, he] at h
    exact absurd h (by norm_num [maxQ])
  rw [peakValue, normalized_vals, maxQ_map_div _ (le_of_lt h) _ hne]
  exact div_self (ne_of_gt h)

/-! ## C7 : absent results for empty / insufficient signal -/

/-- C7 : the Detector returns "absent" (`none`, not an error and not a
region) for every all-zero image, and whenever fewer than
`min_region_size = 10` pixels lie strictly above the noise threshold
(`0.05` of the normalized peak). -/
theorem C7_absent_on_empty_or_weak (img : List (List ℚ))
    (params : ExperimentalParameters) (fname : String) :
    ((∀ v ∈ rawVals img, v = 0) →
      analyze_single_impact_region img params fname = none) ∧
    ((signalPixels img).length < min_region_size →
      analyze_single_impact_region img params fname = none) := by
  constructor
  · intro hz
    have h0 : maxRaw img = 0 := maxQ_of_all_zero _ hz
    unfold analyze_single_impact_region
    rw [h0]
    norm_num
  · intro hw
    unfold analyze_single_impact_region
    by_cases hp : 0 < maxRaw img
    · simp [hp, hw]
    · simp [hp]

set_option maxRecDepth 10000 in
/-- C7 witness : the 2×2 all-zero image and a 1×1 image with too few
flagged pixels are both "absent". -/
theorem C7_witness :
    analyze_single_impact_region [[0, 0], [0, 0]] (initParams "x") "f" = none ∧
    analyze_single_impact_region [[1]] (initParams "x") "f" = none :=
  ⟨(C7_absent_on_empty_or_weak [[0, 0], [0, 0]] (initParams "x") "f").1 (by decide),
   (C7_absent_on_empty_or_weak [[1]] (initParams "x") "f").2
     (by with_unfolding_all decide)⟩

/-! ## C10 : the stored peak intensity is always exactly 1 -/

/-- C10 : every region the Detector produces has `peak_intensity = 1`:
the image is normalized by its own maximum before the peak is read off,
so the stored peak carries no information about the original exposure
level. -/
theorem C10_peak_intensity_one (img : List (List ℚ))
    (params : ExperimentalParameters) (fname : String) (r : ImpactRegion)
    (h : analyze_single_impact_region img params fname = some r) :
    r.peak_intensity = 1 := by
  unfold analyze_single_impact_region at h
  by_cases hp : 0 < maxRaw img
  · rw [if_pos hp] at h
    by_cases hw : (signalPixels img).length < min_region_size
    · rw [if_pos hw] at h; exact absurd h (by simp)
    · rw [if_neg hw] at h
      by_cases hz : ((signalPixels img).map (fun t => t.2.1)).length = 0
      · rw [if_pos hz] at h; exact absurd h (by simp)
      · rw [if_neg hz] at h
        have := (Option.some_injective _ h).symm
        rw [this]
        exact peakValue_eq_one img hp
  · rw [if_neg hp] at h; exact absurd h (by simp)

/-- The concrete 4×4 test image : ten pixels at full intensity, six dark
pixels. -/
def testImg : List (List ℚ) :=
  [[1, 1, 1, 1], [1, 1, 1, 1], [1, 1, 0, 0], [0, 0, 0, 0]]

/-- A placeholder region (for `Option.getD` in witnesses). -/
def dummyRegion : ImpactRegion :=
  { filename := "", beam_energy := 0, esa_voltage := 0, rotation_angle := none,
    centroid_x := 0, centroid_y := 0, peak_intensity := 0, total_intensity := 0,
    region_area := 0, min_x := 0, max_x := 0, min_y := 0, max_y := 0,
    signal_mean := 0, noise_var := 0, noise_count := 0, data_density := 0 }

set_option maxRecDepth 40000 in
/-- C10 witness : the detector output on the test image has peak 1. -/
theorem C10_witness :
    ((analyze_single_impact_region testImg (initParams "x") "f").getD
      dummyRegion).peak_intensity = 1 :=
  C10_peak_intensity_one testImg (initParams "x") "f" _ (by with_unfolding_all decide)

/-! ## C8 : quality-metric bounds -/

/-- Sums of nonnegative lists are nonnegative. -/
theorem sumQ_nonneg (l : List ℚ) (h : ∀ x ∈ l, 0 ≤ x) : 0 ≤ sumQ l := by
  rw [sumQ_eq_sum]
  exact List.sum_nonneg h

/-- Means of nonnegative lists are nonnegative. -/
theorem meanQ_nonneg (l : List ℚ) (h : ∀ x ∈ l, 0 ≤ x) : 0 ≤ meanQ l :=
  div_nonneg (sumQ_nonneg l h) (by positivity)

/-- Here `np.var` is nonnegative. -/
theorem varQ_nonneg (l : List ℚ) : 0 ≤ varQ l := by
  refine div_nonneg (sumQ_nonneg _ ?_) (by positivity)
  intro x hx
  obtain ⟨y, _, rfl⟩ := List.mem_map.mp hx
  positivity

/-- The derived signal-to-noise value is nonnegative whenever it is a
real number at all (the non-signal set is nonempty, so `np.std` is not
NaN) and the stored mean is nonnegative. -/
theorem signal_to_noise_nonneg (r : ImpactRegion) (hm : 0 ≤ r.signal_mean) :
    ∀ x, r.signal_to_noise? = some x → 0 ≤ x := by
  intro x hx
  unfold ImpactRegion.signal_to_noise? at hx
  split at hx
  · exact absurd hx (by simp)
  · obtain rfl : _ = x := Option.some_injective _ hx
    have h1 : (0 : ℝ) ≤ (r.signal_mean : ℝ) := by exact_mod_cast hm
    have h2 : (0 : ℝ) ≤ Real.sqrt (r.noise_var : ℝ) := Real.sqrt_nonneg _
    have h3 : (0 : ℝ) < 1 / 10000000000 := by norm_num
    exact div_nonneg h1 (by linarith)

/-- Every signal-pixel value lies strictly above the threshold. -/
theorem signal_val_gt_threshold (img : List (List ℚ)) (w : ℚ)
    (hw : w ∈ (signalPixels img).map (fun t => t.2.2)) : thresholdOf img < w := by
  obtain ⟨t, ht, rfl⟩ := List.mem_map.mp hw
  have := List.mem_filter.mp ht
  exact of_decide_eq_true this.2

/-- C8 (amended) : every region the Detector produces satisfies
`0 ≤ data_density ≤ 1`, and its `signal_to_noise` is nonnegative
whenever it is a real number — that is, whenever the non-signal set is
nonempty.  When every pixel lies strictly above the noise threshold the
non-signal set is empty, `np.std([])` is NaN, and the stored
`signal_to_noise` is NaN (here `none`) rather than a nonnegative value,
so the unconditional `signal_to_noise ≥ 0` of the original claim fails
(see the counterexample). -/
theorem C8_quality_bounds (img : List (List ℚ))
    (params : ExperimentalParameters) (fname : String) (r : ImpactRegion)
    (h : analyze_single_impact_region img params fname = some r) :
    0 ≤ r.data_density ∧ r.data_density ≤ 1 ∧
      ∀ x, r.signal_to_noise? = some x → 0 ≤ x := by
  unfold analyze_single_impact_region at h
  by_cases hp : 0 < maxRaw img
  · rw [if_pos hp] at h
    by_cases hw : (signalPixels img).length < min_region_size
    · rw [if_pos hw] at h; exact absurd h (by simp)
    · rw [if_neg hw] at h
      by_cases hz : ((signalPixels img).map (fun t => t.2.1)).length = 0
      · rw [if_pos hz] at h; exact absurd h (by simp)
      · rw [if_neg hz] at h
        obtain rfl : _ = r := Option.some_injective _ h
        have hth : thresholdOf img = 1 / 20 := by
          rw [thresholdOf, peakValue_eq_one img hp, noise_threshold]; norm_num
        have hwnn : ∀ x ∈ (signalPixels img).map (fun t => t.2.2), (0 : ℚ) ≤ x := by
          intro x hx
          have := signal_val_gt_threshold img x hx
          rw [hth] at this
          linarith
        have hsle : (signalPixels img).length ≤ (pixelList img).length := by
          calc (signalPixels img).length
              ≤ (normalizedPixels img).length := List.length_filter_le _ _
            _ = (pixelList img).length := by simp [normalizedPixels]
        have hpos : 0 < (pixelList img).length := by
          have h10 : min_region_size ≤ (signalPixels img).length := le_of_not_lt hw
          have : 0 < (signalPixels img).length := lt_of_lt_of_le (by norm_num [min_region_size]) h10
          exact lt_of_lt_of_le this hsle
        refine ⟨?_, ?_, ?_⟩
        · exact div_nonneg (by positivity) (by positivity)
        · have hc : (((signalPixels img).map (fun t => t.2.1)).length : ℚ) ≤
              ((pixelList img).length : ℚ) := by
            simp only [List.length_map]
            exact_mod_cast hsle
          have hd : (0 : ℚ) < ((pixelList img).length : ℚ) := by exact_mod_cast hpos
          exact (div_le_one hd).mpr hc
        · exact signal_to_noise_nonneg _ (meanQ_nonneg _ hwnn)
  · rw [if_neg hp] at h; exact absurd h (by simp)

set_option maxRecDepth 40000 in
/-- C8 witness : quality bounds hold on the analysis of the test image
(whose non-signal set has six pixels, so no NaN arises). -/
theorem C8_witness :
    0 ≤ ((analyze_single_impact_region testImg (initParams "x") "f").getD
        dummyRegion).data_density ∧
    ((analyze_single_impact_region testImg (initParams "x") "f").getD
        dummyRegion).data_density ≤ 1 ∧
    ∀ x, ((analyze_single_impact_region testImg (initParams "x") "f").getD
        dummyRegion).signal_to_noise? = some x → 0 ≤ x :=
  C8_quality_bounds testImg (initParams "x") "f" _ (by with_unfolding_all decide)

/-- A uniform positive image: twelve pixels, all equal, hence all
strictly above the `0.05 * peak` threshold after normalization. -/
def uniformImg : List (List ℚ) := [[1, 1, 1, 1], [1, 1, 1, 1], [1, 1, 1, 1]]

/-- The region the Detector produces on the uniform image. -/
def uniformRegion : ImpactRegion :=
  (analyze_single_impact_region uniformImg (initParams "x") "f").getD dummyRegion

set_option maxRecDepth 40000 in
/-- C8 counterexample : on a uniform positive image with at least ten
pixels every pixel counts as signal, the non-signal set is empty,
`np.std([])` is NaN, and the stored `signal_to_noise` is NaN (`none`)
rather than a nonnegative number — refuting the unconditional
`signal_to_noise ≥ 0` of the original claim. -/
theorem C8_counterexample :
    analyze_single_impact_region uniformImg (initParams "x") "f" =
        some uniformRegion ∧
    uniformRegion.noise_count = 0 ∧
    uniformRegion.signal_to_noise? = none := by
  refine ⟨by with_unfolding_all decide, by with_unfolding_all decide, ?_⟩
  unfold ImpactRegion.signal_to_noise?
  rw [if_pos (by with_unfolding_all decide)]

/-! ## Estimator lemmas shared by C1 and C9 -/

/-- The Measurement that `estimate_k_factor` reports for a qualifying
region, after the in-place `calculate_k_factor` pass. -/
def reportedMeasurement (r : ImpactRegion) : ESAMeasurement :=
  { impact_region := r,
    theoretical_deflection :=
      if 0 < r.beam_energy then r.esa_voltage / r.beam_energy else 0,
    measured_deflection := (r.centroid_x - 512) / 512,
    k_factor_estimate := some (r.beam_energy / abs r.esa_voltage) }

/-- On a qualifying region, the k-factor pass fills in
`energy / |voltage|` and leaves the other fields alone. -/
theorem calc_mk_of_qualifies (r : ImpactRegion) (h : qualifies r = true) :
    calculate_k_factor (mkMeasurement r) = reportedMeasurement r := by
  have hq : r.esa_voltage ≠ 0 ∧ r.beam_energy ≠ 0 := by
    have := h
    unfold qualifies at this
    simpa using this
  unfold calculate_k_factor mkMeasurement reportedMeasurement
  rw [if_pos hq]
  rfl

/-- The mutated measurement list over any all-qualifying region list. -/
theorem map_calc_mk (l : List ImpactRegion) (h : ∀ r ∈ l, qualifies r = true) :
    (l.map mkMeasurement).map calculate_k_factor = l.map reportedMeasurement := by
  induction l with
  | nil => rfl
  | cons a t ih =>
    simp only [List.map_cons]
    rw [calc_mk_of_qualifies a (h a (by simp)), ih (fun r hr => h r (by simp [hr]))]

/-- The collected k-factors over any all-qualifying region list. -/
theorem filterMap_kf (l : List ImpactRegion) :
    (l.map reportedMeasurement).filterMap (fun m => m.k_factor_estimate) =
      l.map (fun r => r.beam_energy / abs r.esa_voltage) := by
  induction l with
  | nil => rfl
  | cons a t ih => simp [reportedMeasurement, ih]

/-! ## C9 : error value exactly when no region qualifies -/

/-- C9 : the estimator returns the explicit error value (an `Except`
error, never a thrown exception; in particular no statistics record is
built, so no NaN aggregates) precisely when no input region has both
nonzero beam energy and nonzero ESA voltage; regions missing either do
not contribute and the whole result only depends on the qualifying
regions. -/
theorem C9_error_iff_no_valid (regions : List ImpactRegion) :
    ((estimate_k_factor regions).toOption = none ↔
      ∀ r ∈ regions, ¬(r.esa_voltage ≠ 0 ∧ r.beam_energy ≠ 0)) ∧
    estimate_k_factor regions = estimate_k_factor (regions.filter qualifies) := by
  constructor
  · by_cases hm : (regions.filter qualifies).map mkMeasurement = []
    · simp only [estimate_k_factor, if_pos hm]
      simp only [Except.toOption, true_iff]
      have hf : regions.filter qualifies = [] := by
        simpa using congrArg List.length hm
      intro r hr hq
      have hqr : qualifies r = true := by
        unfold qualifies
        simp [hq.1, hq.2]
      have : r ∈ regions.filter qualifies := List.mem_filter.mpr ⟨hr, hqr⟩
      simp [hf] at this
    · have hall : ∀ r ∈ regions.filter qualifies, qualifies r = true :=
        fun r hr => (List.mem_filter.mp hr).2
      simp only [estimate_k_factor, if_neg hm, map_calc_mk _ hall, filterMap_kf]
      by_cases hk : (regions.filter qualifies).map
          (fun r => r.beam_energy / abs r.esa_voltage) = []
      · exact absurd (List.map_eq_nil_iff.mp hk)
          (fun h => hm (by simp [h]))
      · rw [if_neg hk]
        refine iff_of_false (by simp [Except.toOption]) ?_
        intro hcon
        have hne : regions.filter qualifies ≠ [] := fun h => hm (by simp [h])
        obtain ⟨r, hr⟩ := List.exists_mem_of_ne_nil _ hne
        have hq := (List.mem_filter.mp hr).2
        unfold qualifies at hq
        simp only [Bool.and_eq_true, decide_eq_true_eq] at hq
        exact hcon r (List.mem_filter.mp hr).1 ⟨hq.1, hq.2⟩
  · unfold estimate_k_factor
    rw [List.filter_filter]
    simp [Bool.and_self]

/-- C9 witness : the empty region list yields the explicit error value,
and a single disqualified region does not change a result. -/
theorem C9_witness :
    ((estimate_k_factor []).toOption = none ↔
      ∀ r ∈ ([] : List ImpactRegion), ¬(r.esa_voltage ≠ 0 ∧ r.beam_energy ≠ 0)) ∧
    estimate_k_factor [] = estimate_k_factor (List.filter qualifies []) :=
  C9_error_iff_no_valid []

/-! ## C1 : the Measurement contents (corrected) -/

/-- The region refuting the claim's `theoreticalDeflection = voltage /
energy` for *every* nonzero energy: the source guards the division with
`beam_energy > 0` and returns `0.0` for negative energies. -/
def cexRegion : ImpactRegion :=
  { dummyRegion with beam_energy := -1000, esa_voltage := 5 }

/-- C1 counterexample : `cexRegion` has nonzero energy and voltage, so a
Measurement is built for it, but its `theoretical_deflection` is `0`,
not `voltage / energy = 5 / (-1000) ≠ 0`. -/
theorem C1_counterexample :
    (estimate_k_factor [cexRegion]).toOption.map
        (fun res => res.measurements.map (fun m => m.theoretical_deflection)) =
      some [0] ∧
    cexRegion.beam_energy ≠ 0 ∧ cexRegion.esa_voltage ≠ 0 ∧
    cexRegion.esa_voltage / cexRegion.beam_energy ≠ 0 := by
  refine ⟨by decide, by decide, by decide, ?_⟩
  show (5 : ℚ) / (-1000) ≠ 0
  norm_num

/-- C1 (amended) : for every impact region with nonzero beam energy and
nonzero ESA voltage the estimator constructs exactly one Measurement,
with `measured_deflection = (centroid_x - 512) / 512` (1024-wide
detector, center 512), k-factor exactly `energy / |voltage|`, and
`theoretical_deflection = voltage / energy` **when the energy is
positive** (`0` otherwise — the source guards the division with
`beam_energy > 0`). -/
theorem C1_measurement_contents (regions : List ImpactRegion)
    (res : KFactorResults) (h : estimate_k_factor regions = Except.ok res) :
    res.measurements = (regions.filter qualifies).map reportedMeasurement := by
  by_cases hm : (regions.filter qualifies).map mkMeasurement = []
  · simp only [estimate_k_factor, if_pos hm] at h
    exact absurd h (by simp)
  · have hall : ∀ r ∈ regions.filter qualifies, qualifies r = true :=
      fun r hr => (List.mem_filter.mp hr).2
    simp only [estimate_k_factor, if_neg hm, map_calc_mk _ hall, filterMap_kf] at h
    by_cases hk : (regions.filter qualifies).map
        (fun r => r.beam_energy / abs r.esa_voltage) = []
    · rw [if_pos hk] at h; exact absurd h (by simp)
    · rw [if_neg hk] at h
      have := Except.ok.inj h
      rw [← this]

/-- A placeholder statistics record (for `Except.toOption.getD` in the
C1 witness). -/
def dummyResults : KFactorResults :=
  { k_factor_mean := 0, k_factor_var := 0, k_factor_median := 0,
    k_factor_range := (0, 0), num_measurements := 0, measurements := [],
    k_factors := [] }

/-- The qualifying witness region for C1 (energy 1000 eV, voltage
−181 V). -/
def witRegion : ImpactRegion :=
  { dummyRegion with beam_energy := 1000, esa_voltage := -181, centroid_x := 512 }

/-- C1 witness : the reported measurement list for one qualifying region
is exactly the one reported Measurement. -/
theorem C1_witness :
    ((estimate_k_factor [witRegion]).toOption.getD dummyResults).measurements =
      ([witRegion].filter qualifies).map reportedMeasurement :=
  C1_measurement_contents [witRegion] _ rfl

/-! ## Float / split / angle inversion lemmas (for C2, C3, C4) -/

/-- A successfully `float()`ed unsigned string consists of digits and at
most one dot. -/
theorem parseUnsigned?_chars (l : List Char) (v : ℚ)
    (h : parseUnsigned? l = some v) :
    ∀ c ∈ l, c.isDigit = true ∨ c = '.' := by
  unfold parseUnsigned? at h
  simp only [] at h
  intro c hc
  rw [← List.takeWhile_append_dropWhile (p := Char.isDigit) (l := l)] at hc
  rcases List.mem_append.mp hc with htk | hdr
  · exact Or.inl (List.mem_takeWhile_imp htk)
  · split at h
    · next heq => rw [heq] at hdr; exact absurd hdr (by simp)
    · next r2 heq =>
      split at h
      · next hcond =>
        rw [heq] at hdr
        rcases List.mem_cons.mp hdr with rfl | hdr2
        · exact Or.inr rfl
        · rw [← List.takeWhile_append_dropWhile (p := Char.isDigit) (l := r2),
            hcond.1] at hdr2
          simp only [List.append_nil] at hdr2
          exact Or.inl (List.mem_takeWhile_imp hdr2)
      · exact absurd h (by simp)
    · exact absurd h (by simp)

/-- A successfully `float()`ed string consists of digits, a sign and at
most one dot. -/
theorem parseFloat?_chars (l : List Char) (v : ℚ) (h : parseFloat? l = some v) :
    ∀ c ∈ l, c.isDigit = true ∨ c = '-' ∨ c = '+' ∨ c = '.' := by
  unfold parseFloat? at h
  intro c hc
  split at h
  · next r =>
    rcases List.mem_cons.mp hc with rfl | hc2
    · exact Or.inr (Or.inl rfl)
    · obtain ⟨q, hq, _⟩ := Option.map_eq_some'.mp h
      rcases parseUnsigned?_chars r q hq c hc2 with hd | hdot
      · exact Or.inl hd
      · exact Or.inr (Or.inr (Or.inr hdot))
  · next r =>
    rcases List.mem_cons.mp hc with rfl | hc2
    · exact Or.inr (Or.inr (Or.inl rfl))
    · rcases parseUnsigned?_chars r v h c hc2 with hd | hdot
      · exact Or.inl hd
      · exact Or.inr (Or.inr (Or.inr hdot))
  · rcases parseUnsigned?_chars l v h c hc with hd | hdot
    · exact Or.inl hd
    · exact Or.inr (Or.inr (Or.inr hdot))

/-- No character of a successfully `float()`ed string is `'t'`. -/
theorem parseFloat?_no_t (l : List Char) (v : ℚ) (h : parseFloat? l = some v) :
    ∀ c ∈ l, ¬ c = 't' := by
  intro c hc he
  subst he
  rcases parseFloat?_chars l v h 't' hc with hd | h1 | h2 | h3 <;> simp_all

/-- Here `float("")` fails, so a parsed token is nonempty. -/
theorem parseFloat?_ne_nil (l : List Char) (v : ℚ) (h : parseFloat? l = some v) :
    l ≠ [] := by
  intro he
  subst he
  simp [parseFloat?, parseUnsigned?] at h

/-- Here `split` never returns an empty list of parts. -/
theorem splitOnTo_ne_nil (l : List Char) : splitOnTo l ≠ [] := by
  induction l using splitOnTo.induct with
  | case1 => simp [splitOnTo]
  | case2 => simp [splitOnTo]
  | case3 c1 c2 rest hto ih =>
    simp only [splitOnTo, if_pos hto]
    simp
  | case4 c1 c2 rest hto hnil ih =>
    simp only [splitOnTo, if_neg hto, hnil]
    simp
  | case5 c1 c2 rest hto hd tl hcons ih =>
    simp only [splitOnTo, if_neg hto, hcons]
    simp

/-- A string without `'t'` splits into a single part. -/
theorem splitOnTo_no_t (l : List Char) (h : ∀ c ∈ l, ¬ c = 't') :
    splitOnTo l = [l] := by
  induction l using splitOnTo.induct with
  | case1 => rfl
  | case2 => rfl
  | case3 c1 c2 rest hto ih =>
    exact absurd hto.1 (h c1 (by simp))
  | case4 c1 c2 rest hto hnil ih =>
    exact absurd (ih (fun c hc => h c (by simp [hc])) ▸ hnil) (by simp)
  | case5 c1 c2 rest hto hd tl hcons ih =>
    have heq : hd :: tl = [c2 :: rest] := by
      rw [← hcons, ih (fun c hc => h c (by simp [hc]))]
    obtain ⟨rfl, rfl⟩ : hd = c2 :: rest ∧ tl = [] := List.cons.inj heq
    simp only [splitOnTo, if_neg hto, hcons]

/-- Splitting a `'t'`-free prefix, the separator, and a tail. -/
theorem splitOnTo_append (a b : List Char) (ha : ∀ c ∈ a, ¬ c = 't') :
    splitOnTo (a ++ 't' :: 'o' :: b) = a :: splitOnTo b := by
  induction a with
  | nil =>
    show splitOnTo ('t' :: 'o' :: b) = [] :: splitOnTo b
    rw [splitOnTo, if_pos ⟨rfl, rfl⟩]
  | cons c a' ih =>
    have hc : ¬ c = 't' := ha c (by simp)
    have hih := ih (fun x hx => ha x (by simp [hx]))
    obtain ⟨d, rest, hdr⟩ : ∃ d rest, a' ++ 't' :: 'o' :: b = d :: rest := by
      cases a' <;> exact ⟨_, _, rfl⟩
    show splitOnTo (c :: (a' ++ 't' :: 'o' :: b)) = (c :: a') :: splitOnTo b
    rw [hdr, splitOnTo, if_neg (fun hcon => hc hcon.1), ← hdr, hih]

/-- Here `_parse_angle` on a well-formed `"AtoB"` token yields the
`(min, max)` range. -/
theorem parse_angle_pair (ta tb : List Char) (A B : ℚ)
    (hA : parseFloat? ta = some A) (hB : parseFloat? tb = some B) :
    parse_angle (ta ++ 't' :: 'o' :: tb) = some (Sum.inr (min A B, max A B)) := by
  have hsplit : splitOnTo (ta ++ 't' :: 'o' :: tb) = [ta, tb] := by
    rw [splitOnTo_append ta tb (parseFloat?_no_t ta A hA),
      splitOnTo_no_t tb (parseFloat?_no_t tb B hB)]
  unfold parse_angle
  rw [hsplit]
  simp [hA, hB]

/-! ## Token languages and parse-success lemmas -/

/-- Here `\d+` as a language. -/
def DigitsShape (t : List Char) : Prop :=
  t ≠ [] ∧ ∀ c ∈ t, c.isDigit = true

/-- Here `-?\d+` as a language. -/
def SignedIntShape (t : List Char) : Prop :=
  DigitsShape t ∨ ∃ d, t = '-' :: d ∧ DigitsShape d

/-- Here `\d+(\.\d+)?` as a language. -/
def DecimalShape (t : List Char) : Prop :=
  DigitsShape t ∨ ∃ d f, t = d ++ '.' :: f ∧ DigitsShape d ∧ DigitsShape f

/-- Here `-?\d+(\.\d+)?` as a language. -/
def SignedDecShape (t : List Char) : Prop :=
  DecimalShape t ∨ ∃ d, t = '-' :: d ∧ DecimalShape d

/-- The inner-angle group language. -/
def AngleShape (t : List Char) : Prop :=
  SignedIntShape t ∨
    ∃ a b, t = a ++ 't' :: 'o' :: b ∧ SignedIntShape a ∧ SignedIntShape b

/-- The lower-case energy group language (`detailed` / `simple_energy` /
`rotating`). -/
def EnergyShapeL (t : List Char) : Prop :=
  ∃ d, DecimalShape d ∧ (t = d ++ chars "eV" ∨ t = d ++ chars "keV")

/-- The case-variant energy group language (`voltage_energy` /
`beam_prep`). -/
def EnergyShapeC (t : List Char) : Prop :=
  ∃ d, DecimalShape d ∧
    (t = d ++ chars "eV" ∨ t = d ++ chars "EV" ∨ t = d ++ chars "keV" ∨
     t = d ++ chars "kEV" ∨ t = d ++ chars "KeV" ∨ t = d ++ chars "KEV")

/-- A digit character is not any specific non-digit character. -/
theorem digit_ne (c k : Char) (hc : c.isDigit = true) (hk : k.isDigit = false) :
    ¬ c = k := fun h => by rw [h, hk] at hc; cases hc

/-- Here `takeWhile` / `dropWhile` on an all-satisfying list. -/
theorem takeWhile_all_eq {p : Char → Bool} (l : List Char)
    (h : ∀ c ∈ l, p c = true) :
    l.takeWhile p = l ∧ l.dropWhile p = [] := by
  induction l with
  | nil => exact ⟨rfl, rfl⟩
  | cons c t ih =>
    have hc := h c (by simp)
    have ht := ih (fun x hx => h x (by simp [hx]))
    simp [List.takeWhile_cons, List.dropWhile_cons, hc, ht.1, ht.2]

/-- Here `takeWhile` / `dropWhile` across an all-satisfying prefix followed by
a failing character. -/
theorem takeWhile_append_cons {p : Char → Bool} (l1 : List Char) (c2 : Char)
    (l2 : List Char) (h1 : ∀ c ∈ l1, p c = true) (h2 : p c2 = false) :
    (l1 ++ c2 :: l2).takeWhile p = l1 ∧ (l1 ++ c2 :: l2).dropWhile p = c2 :: l2 := by
  induction l1 with
  | nil => simp [List.takeWhile_cons, List.dropWhile_cons, h2]
  | cons c t ih =>
    have hc := h1 c (by simp)
    have ht := ih (fun x hx => h1 x (by simp [hx]))
    simp [List.takeWhile_cons, List.dropWhile_cons, hc, ht.1, ht.2]

/-- Here `parseUnsigned?` succeeds on a digit string with its numeric value. -/
theorem parseUnsigned?_digits (t : List Char) (h : DigitsShape t) :
    parseUnsigned? t = some (natVal t) := by
  obtain ⟨hne, hall⟩ := h
  have htk := takeWhile_all_eq t hall
  unfold parseUnsigned?
  rw [htk.2]
  simp [htk.1, hne]

/-- Here `parseUnsigned?` succeeds on every `DecimalShape` token. -/
theorem parseUnsigned?_decimal (t : List Char) (h : DecimalShape t) :
    ∃ v, parseUnsigned? t = some v := by
  rcases h with hd | ⟨d, f, rfl, hd, hf⟩
  · exact ⟨_, parseUnsigned?_digits t hd⟩
  · have hsplit := takeWhile_append_cons d '.' f hd.2 (by decide)
    have hfk := takeWhile_all_eq f hf.2
    refine ⟨(natVal d : ℚ) + (natVal f : ℚ) / (10 : ℚ) ^ f.length, ?_⟩
    unfold parseUnsigned?
    rw [hsplit.2]
    simp [hsplit.1, hfk.1, hfk.2, hd.1]

/-- A digit-headed token is not consumed by the sign cases of
`parseFloat?`. -/
theorem parseFloat?_of_digit_head (c : Char) (t : List Char)
    (hc : c.isDigit = true) :
    parseFloat? (c :: t) = parseUnsigned? (c :: t) := by
  have h1 : ¬ c = '-' := digit_ne c '-' hc (by decide)
  have h2 : ¬ c = '+' := digit_ne c '+' hc (by decide)
  unfold parseFloat?
  split
  · next r heq => exact absurd (List.cons.inj heq).1 h1
  · next r heq => exact absurd (List.cons.inj heq).1 h2
  · rfl

/-- Here `parseFloat?` succeeds on every `SignedIntShape` token. -/
theorem parseFloat?_signedInt (t : List Char) (h : SignedIntShape t) :
    ∃ v, parseFloat? t = some v := by
  rcases h with ⟨hne, hall⟩ | ⟨d, rfl, hd⟩
  · cases t with
    | nil => exact absurd rfl hne
    | cons c r =>
      rw [parseFloat?_of_digit_head c r (hall c (by simp))]
      exact ⟨_, parseUnsigned?_digits _ ⟨by simp, hall⟩⟩
  · refine ⟨-(natVal d : ℚ), ?_⟩
    show (parseUnsigned? d).map (fun q => -q) = _
    rw [parseUnsigned?_digits d hd]
    rfl

/-- Here `parseFloat?` succeeds on every `SignedDecShape` token. -/
theorem parseFloat?_signedDec (t : List Char) (h : SignedDecShape t) :
    ∃ v, parseFloat? t = some v := by
  rcases h with hd | ⟨d, rfl, hd⟩
  · rcases hd with hdd | ⟨a, f, rfl, ha, hf⟩
    · exact parseFloat?_signedInt _ (Or.inl hdd)
    · cases a with
      | nil => exact absurd rfl ha.1
      | cons c r =>
        rw [show (c :: r) ++ '.' :: f = c :: (r ++ '.' :: f) from rfl,
          parseFloat?_of_digit_head c _ (ha.2 c (by simp))]
        exact Exists.imp (fun v hv => hv) (parseUnsigned?_decimal _
          (Or.inr ⟨c :: r, f, rfl, ha, hf⟩))
  · obtain ⟨v, hv⟩ := parseUnsigned?_decimal d hd
    exact ⟨-v, by show (parseUnsigned? d).map (fun q => -q) = _; rw [hv]; rfl⟩

/-- Signed-integer tokens contain no letter `'t'`. -/
theorem signedInt_no_t (t : List Char) (h : SignedIntShape t) :
    ∀ c ∈ t, ¬ c = 't' := by
  rcases h with ⟨_, hall⟩ | ⟨d, rfl, hd⟩
  · exact fun c hc => digit_ne c 't' (hall c hc) (by decide)
  · intro c hc
    rcases List.mem_cons.mp hc with rfl | hc2
    · decide
    · exact digit_ne c 't' (hd.2 c hc2) (by decide)

/-- Here `_parse_angle` succeeds on every `AngleShape` token. -/
theorem parse_angle_of_shape (t : List Char) (h : AngleShape t) :
    ∃ r, parse_angle t = some r := by
  rcases h with hs | ⟨a, b, rfl, ha, hb⟩
  · obtain ⟨v, hv⟩ := parseFloat?_signedInt t hs
    refine ⟨Sum.inl v, ?_⟩
    unfold parse_angle
    rw [splitOnTo_no_t t (signedInt_no_t t hs), hv]
    rfl
  · obtain ⟨va, hva⟩ := parseFloat?_signedInt a ha
    obtain ⟨vb, hvb⟩ := parseFloat?_signedInt b hb
    exact ⟨_, parse_angle_pair a b va vb hva hvb⟩

/-! ## `_parse_energy` on grammar-produced tokens -/

/-- A list is a prefix of itself extended. -/
theorem startsWithL_self_append (p r : List Char) :
    startsWithL p (p ++ r) = true := by
  induction p with
  | nil => rfl
  | cons c t ih => simpa [startsWithL] using ih

/-- Here `endswith` holds for an appended suffix. -/
theorem endsWithL_self (l s : List Char) : endsWithL (l ++ s) s = true := by
  unfold endsWithL
  rw [List.reverse_append]
  exact startsWithL_self_append s.reverse l.reverse

/-- A decimal token reversed starts with a digit. -/
theorem decimal_rev (d : List Char) (h : DecimalShape d) :
    ∃ c rest, d.reverse = c :: rest ∧ c.isDigit = true := by
  rcases h with ⟨hne, hall⟩ | ⟨d0, f, rfl, hd0, hf⟩
  · cases hr : d.reverse with
    | nil => exact absurd (by simpa using congrArg List.reverse hr) hne
    | cons c rest =>
      refine ⟨c, rest, rfl, hall c ?_⟩
      rw [← List.mem_reverse, hr]
      simp
  · cases hfr : f.reverse with
    | nil => exact absurd (by simpa using congrArg List.reverse hfr) hf.1
    | cons c rest =>
      refine ⟨c, rest ++ '.' :: d0.reverse, ?_, ?_⟩
      · rw [List.reverse_append, List.reverse_cons, hfr]
        simp
      · refine hf.2 c ?_
        rw [← List.mem_reverse, hfr]
        simp

/-- A single non-matching head refutes a one-character prefix test. -/
theorem sw_one_false (k c : Char) (rest : List Char) (h : ¬ k = c) :
    startsWithL [k] (c :: rest) = false := by
  simp [startsWithL, h]

/-- Here `_parse_energy` on `<decimal>eV`. -/
theorem parse_energy_eV (d : List Char) (v : ℚ) (hd : DecimalShape d)
    (hv : parseFloat? d = some v) :
    parse_energy (d ++ chars "eV") = some (v, "eV") := by
  obtain ⟨c, rest, hrev, hcd⟩ := decimal_rev d hd
  have hne : ∀ k : Char, k.isDigit = false → ¬ k = c :=
    fun k hk he => digit_ne c k hcd hk he.symm
  have hrv : (d ++ chars "eV").reverse = 'V' :: 'e' :: d.reverse := by
    rw [List.reverse_append]; rfl
  have h1 : endsWithL (d ++ chars "eV") (chars "keV") = false := by
    show startsWithL ['V', 'e', 'k'] (d ++ chars "eV").reverse = false
    rw [hrv, hrev]
    simpa [startsWithL] using hne 'k' (by decide)
  have h2 : endsWithL (d ++ chars "eV") (chars "kEV") = false := by
    show startsWithL ['V', 'E', 'k'] (d ++ chars "eV").reverse = false
    rw [hrv]
    simp [startsWithL]
  have h3 : endsWithL (d ++ chars "eV") (chars "KEV") = false := by
    show startsWithL ['V', 'E', 'K'] (d ++ chars "eV").reverse = false
    rw [hrv]
    simp [startsWithL]
  have h4 : endsWithL (d ++ chars "eV") (chars "KeV") = false := by
    show startsWithL ['V', 'e', 'K'] (d ++ chars "eV").reverse = false
    rw [hrv, hrev]
    simpa [startsWithL] using hne 'K' (by decide)
  have h5 : endsWithL (d ++ chars "eV") (chars "eV") = true := endsWithL_self _ _
  have hlen : (d ++ chars "eV").length - 2 = d.length := by
    simp [List.length_append, chars]
  unfold parse_energy
  rw [h1, h2, h3, h4, h5, hlen]
  simp [List.take_left, hv]

/-- Here `_parse_energy` on `<decimal>keV` multiplies by 1000. -/
theorem parse_energy_keV (d : List Char) (v : ℚ) (hv : parseFloat? d = some v) :
    parse_energy (d ++ chars "keV") = some (v * 1000, "eV") := by
  have h1 : endsWithL (d ++ chars "keV") (chars "keV") = true := endsWithL_self _ _
  have hlen : (d ++ chars "keV").length - 3 = d.length := by
    simp [List.length_append, chars]
  have htk : (d ++ chars "keV").take (d.length + (chars "keV").length - 3) = d := by
    have he : d.length + (chars "keV").length - 3 = d.length := by simp [chars]
    rw [he]; exact List.take_left d _
  unfold parse_energy
  rw [h1]
  simp [htk, hv]

/-- Here `_parse_energy` on the other kilo case variants (`kEV`, `KeV`,
`KEV`): all strip three characters and multiply by 1000. -/
theorem parse_energy_kVariant (d : List Char) (v : ℚ) (suf : List Char)
    (hsuf : suf = chars "kEV" ∨ suf = chars "KeV" ∨ suf = chars "KEV")
    (hv : parseFloat? d = some v) :
    parse_energy (d ++ suf) = some (v * 1000, "eV") := by
  have h1 : (endsWithL (d ++ suf) (chars "keV") || endsWithL (d ++ suf) (chars "kEV") ||
      endsWithL (d ++ suf) (chars "KEV") || endsWithL (d ++ suf) (chars "KeV")) = true := by
    rcases hsuf with rfl | rfl | rfl <;> simp [endsWithL_self]
  have hlen : (d ++ suf).length - 3 = d.length := by
    rcases hsuf with rfl | rfl | rfl <;> simp [List.length_append, chars]
  have htk : (d ++ suf).take (d.length + suf.length - 3) = d := by
    have he : d.length + suf.length - 3 = d.length := by
      rcases hsuf with rfl | rfl | rfl <;> simp [chars]
    rw [he]; exact List.take_left d _
  unfold parse_energy
  rw [h1]
  simp [htk, hv]

/-- Here `_parse_energy` on `<decimal>EV`. -/
theorem parse_energy_EV (d : List Char) (v : ℚ) (hd : DecimalShape d)
    (hv : parseFloat? d = some v) :
    parse_energy (d ++ chars "EV") = some (v, "eV") := by
  obtain ⟨c, rest, hrev, hcd⟩ := decimal_rev d hd
  have hne : ∀ k : Char, k.isDigit = false → ¬ k = c :=
    fun k hk he => digit_ne c k hcd hk he.symm
  have hrv : (d ++ chars "EV").reverse = 'V' :: 'E' :: d.reverse := by
    rw [List.reverse_append]; rfl
  have h1 : endsWithL (d ++ chars "EV") (chars "keV") = false := by
    show startsWithL ['V', 'e', 'k'] (d ++ chars "EV").reverse = false
    rw [hrv]
    simp [startsWithL]
  have h2 : endsWithL (d ++ chars "EV") (chars "kEV") = false := by
    show startsWithL ['V', 'E', 'k'] (d ++ chars "EV").reverse = false
    rw [hrv, hrev]
    simpa [startsWithL] using hne 'k' (by decide)
  have h3 : endsWithL (d ++ chars "EV") (chars "KEV") = false := by
    show startsWithL ['V', 'E', 'K'] (d ++ chars "EV").reverse = false
    rw [hrv, hrev]
    simpa [startsWithL] using hne 'K' (by decide)
  have h4 : endsWithL (d ++ chars "EV") (chars "KeV") = false := by
    show startsWithL ['V', 'e', 'K'] (d ++ chars "EV").reverse = false
    rw [hrv]
    simp [startsWithL]
  have h5 : endsWithL (d ++ chars "EV") (chars "eV") = false := by
    show startsWithL ['V', 'e'] (d ++ chars "EV").reverse = false
    rw [hrv]
    simp [startsWithL]
  have h6 : endsWithL (d ++ chars "EV") (chars "EV") = true := endsWithL_self _ _
  have hlen : (d ++ chars "EV").length - 2 = d.length := by
    simp [List.length_append, chars]
  unfold parse_energy
  rw [h1, h2, h3, h4, h5, h6, hlen]
  simp [List.take_left, hv]

/-- Here `_parse_energy` succeeds on every lower-case grammar energy token. -/
theorem parse_energy_of_shapeL (t : List Char) (h : EnergyShapeL t) :
    ∃ vu, parse_energy t = some vu := by
  obtain ⟨d, hd, hsuf⟩ := h
  have hdec : SignedDecShape d := Or.inl hd
  obtain ⟨v, hv⟩ := parseFloat?_signedDec d hdec
  rcases hsuf with rfl | rfl
  · exact ⟨(v, "eV"), parse_energy_eV d v hd hv⟩
  · exact ⟨(v * 1000, "eV"), parse_energy_keV d v hv⟩

/-- Here `_parse_energy` succeeds on every case-variant grammar energy token. -/
theorem parse_energy_of_shapeC (t : List Char) (h : EnergyShapeC t) :
    ∃ vu, parse_energy t = some vu := by
  obtain ⟨d, hd, hsuf⟩ := h
  obtain ⟨v, hv⟩ := parseFloat?_signedDec d (Or.inl hd)
  rcases hsuf with rfl | rfl | rfl | rfl | rfl | rfl
  · exact ⟨(v, "eV"), parse_energy_eV d v hd hv⟩
  · exact ⟨(v, "eV"), parse_energy_EV d v hd hv⟩
  · exact ⟨(v * 1000, "eV"), parse_energy_keV d v hv⟩
  · exact ⟨(v * 1000, "eV"), parse_energy_kVariant d v _ (Or.inl rfl) hv⟩
  · exact ⟨(v * 1000, "eV"), parse_energy_kVariant d v _ (Or.inr (Or.inl rfl)) hv⟩
  · exact ⟨(v * 1000, "eV"), parse_energy_kVariant d v _ (Or.inr (Or.inr rfl)) hv⟩

/-! ## Shapes of matcher-captured tokens -/

/-- Inversion for the backtracking search. -/
theorem firstSome_some {α β : Type} (l : List α) (f : α → Option β) (b : β)
    (h : firstSome l f = some b) : ∃ a, f a = some b := by
  induction l with
  | nil => exact absurd h (by simp [firstSome])
  | cons a t ih =>
    unfold firstSome at h
    split at h
    · next hb => exact ⟨a, by rw [hb, h]⟩
    · exact ih h

/-- Here `digitsTok` captures a `\d+` token. -/
theorem digitsTok_shape (l : List Char) (p : List Char × List Char)
    (h : digitsTok l = some p) : DigitsShape p.1 := by
  unfold digitsTok at h
  simp only [] at h
  split at h
  · exact absurd h (by simp)
  · next hne =>
    obtain rfl := Option.some_injective _ h
    exact ⟨hne, fun c hc => List.mem_takeWhile_imp hc⟩

/-- Here `signedIntTok` captures a `-?\d+` token. -/
theorem signedIntTok_shape (l : List Char) (p : List Char × List Char)
    (h : signedIntTok l = some p) : SignedIntShape p.1 := by
  unfold signedIntTok at h
  split at h
  · next r =>
    obtain ⟨q, hq, rfl⟩ := Option.map_eq_some'.mp h
    exact Or.inr ⟨q.1, rfl, digitsTok_shape r q hq⟩
  · exact Or.inl (digitsTok_shape l p h)

/-- Here `decimalTok` captures a `\d+(\.\d+)?` token. -/
theorem decimalTok_shape (l : List Char) (p : List Char × List Char)
    (h : decimalTok l = some p) : DecimalShape p.1 := by
  unfold decimalTok at h
  split at h
  · exact absurd h (by simp)
  · next d r hdr =>
    have hd := digitsTok_shape l (d, r) hdr
    split at h
    · next r2 =>
      split at h
      · next f r3 hf =>
        obtain rfl := Option.some_injective _ h
        exact Or.inr ⟨d, f, rfl, hd, digitsTok_shape r2 (f, r3) hf⟩
      · obtain rfl := Option.some_injective _ h
        exact Or.inl hd
    · obtain rfl := Option.some_injective _ h
      exact Or.inl hd

/-- Here `signedDecTok` captures a `-?\d+(\.\d+)?` token. -/
theorem signedDecTok_shape (l : List Char) (p : List Char × List Char)
    (h : signedDecTok l = some p) : SignedDecShape p.1 := by
  unfold signedDecTok at h
  split at h
  · next r =>
    obtain ⟨q, hq, rfl⟩ := Option.map_eq_some'.mp h
    exact Or.inr ⟨q.1, rfl, decimalTok_shape r q hq⟩
  · exact Or.inl (decimalTok_shape l p h)

/-- Here `angleTok` captures an angle-group token. -/
theorem angleTok_shape (l : List Char) (p : List Char × List Char)
    (h : angleTok l = some p) : AngleShape p.1 := by
  unfold angleTok at h
  split at h
  · exact absurd h (by simp)
  · next a r har =>
    have ha := signedIntTok_shape l (a, r) har
    split at h
    · next r2 =>
      split at h
      · next b r3 hb =>
        obtain rfl := Option.some_injective _ h
        exact Or.inr ⟨a, b, rfl, ha, signedIntTok_shape r2 (b, r3) hb⟩
      · obtain rfl := Option.some_injective _ h
        exact Or.inl ha
    · obtain rfl := Option.some_injective _ h
      exact Or.inl ha

/-- Here `energyTokL` captures a lower-case energy token. -/
theorem energyTokL_shape (l : List Char) (p : List Char × List Char)
    (h : energyTokL l = some p) : EnergyShapeL p.1 := by
  unfold energyTokL at h
  split at h
  · exact absurd h (by simp)
  · next d r hdr =>
    have hd := decimalTok_shape l (d, r) hdr
    split at h
    · next r3 =>
      obtain rfl := Option.some_injective _ h
      exact ⟨d, hd, Or.inr rfl⟩
    · next r3 =>
      obtain rfl := Option.some_injective _ h
      exact ⟨d, hd, Or.inl rfl⟩
    · exact absurd h (by simp)

/-- Here `evTok` captures `eV` or `EV`. -/
theorem evTok_shape (l : List Char) (p : List Char × List Char)
    (h : evTok l = some p) : p.1 = chars "eV" ∨ p.1 = chars "EV" := by
  unfold evTok at h
  split at h
  · obtain rfl := Option.some_injective _ h
    exact Or.inl rfl
  · obtain rfl := Option.some_injective _ h
    exact Or.inr rfl
  · exact absurd h (by simp)

/-- Here `energyTokC` captures a case-variant energy token. -/
theorem energyTokC_shape (l : List Char) (p : List Char × List Char)
    (h : energyTokC l = some p) : EnergyShapeC p.1 := by
  unfold energyTokC at h
  split at h
  · exact absurd h (by simp)
  · next d r hdr =>
    have hd := decimalTok_shape l (d, r) hdr
    split at h
    · next r2 =>
      obtain ⟨q, hq, rfl⟩ := Option.map_eq_some'.mp h
      rcases evTok_shape r2 q hq with he | he <;> rw [he]
      · exact ⟨d, hd, Or.inr (Or.inr (Or.inl rfl))⟩
      · exact ⟨d, hd, Or.inr (Or.inr (Or.inr (Or.inl rfl)))⟩
    · next r2 =>
      obtain ⟨q, hq, rfl⟩ := Option.map_eq_some'.mp h
      rcases evTok_shape r2 q hq with he | he <;> rw [he]
      · exact ⟨d, hd, Or.inr (Or.inr (Or.inr (Or.inr (Or.inl rfl))))⟩
      · exact ⟨d, hd, Or.inr (Or.inr (Or.inr (Or.inr (Or.inr rfl))))⟩
    · obtain ⟨q, hq, rfl⟩ := Option.map_eq_some'.mp h
      rcases evTok_shape r q hq with he | he <;> rw [he]
      · exact ⟨d, hd, Or.inl rfl⟩
      · exact ⟨d, hd, Or.inr (Or.inl rfl)⟩

/-! ## Per-grammar capture-group languages -/

/-- Decomposition of the common beam tail. -/
theorem matchBeamTail_parts (l : List Char) (g : Groups)
    (h : matchBeamTail l = some g) :
    ∃ en fx fy ox oy wv esa mcp me ts,
      g = { beam_energy := some en, focus_x := some fx, focus_y := some fy,
            offset_x := some ox, offset_y := some oy, wave_type := some wv,
            esa_voltage := some esa, mcp_voltage := some mcp,
            mcp_extra := some me, timestamp := ts } ∧
      EnergyShapeL en ∧ SignedDecShape esa ∧ DecimalShape mcp := by
  unfold matchBeamTail at h
  simp only [Option.bind_eq_some] at h
  obtain ⟨l1, h1, h⟩ := h
  obtain ⟨p1, hp1, h⟩ := h
  obtain ⟨l3, h3, h⟩ := h
  obtain ⟨q1, h⟩ := firstSome_some _ _ _ h
  simp only [Option.bind_eq_some] at h
  obtain ⟨l5, h5, h⟩ := h
  obtain ⟨q2, h⟩ := firstSome_some _ _ _ h
  simp only [Option.bind_eq_some] at h
  obtain ⟨l7, h7, h⟩ := h
  obtain ⟨q3, h⟩ := firstSome_some _ _ _ h
  simp only [Option.bind_eq_some] at h
  obtain ⟨l9, h9, h⟩ := h
  obtain ⟨q4, h⟩ := firstSome_some _ _ _ h
  simp only [Option.bind_eq_some] at h
  obtain ⟨l11, h11, h⟩ := h
  obtain ⟨q5, h⟩ := firstSome_some _ _ _ h
  simp only [Option.bind_eq_some] at h
  obtain ⟨l13, h13, h⟩ := h
  obtain ⟨p6, hp6, h⟩ := h
  obtain ⟨l15, h15, h⟩ := h
  obtain ⟨p7, hp7, h⟩ := h
  obtain ⟨l17, h17, h⟩ := h
  obtain ⟨p8, hp8, h⟩ := h
  obtain rfl := Option.some_injective _ h
  exact ⟨p1.1, q1.1, q2.1, q3.1, q4.1, q5.1, p6.1, p7.1, p8.1, tsOpt p8.2, rfl,
    energyTokL_shape _ _ hp1, signedDecTok_shape _ _ hp6, decimalTok_shape _ _ hp7⟩

/-- Decomposition of the `detailed` grammar. -/
theorem matchDetailedAt_parts (l : List Char) (g : Groups)
    (h : matchDetailedAt l = some g) :
    ∃ en fx fy ox oy wv esa mcp me ts ang hor,
      g = { beam_energy := some en, focus_x := some fx, focus_y := some fy,
            offset_x := some ox, offset_y := some oy, wave_type := some wv,
            esa_voltage := some esa, mcp_voltage := some mcp,
            mcp_extra := some me, timestamp := ts,
            inner_angle := some ang, hor_value := some hor } ∧
      EnergyShapeL en ∧ SignedDecShape esa ∧ DecimalShape mcp ∧
      AngleShape ang ∧ DigitsShape hor := by
  unfold matchDetailedAt at h
  simp only [Option.bind_eq_some] at h
  obtain ⟨l1, h1, h⟩ := h
  obtain ⟨p1, hp1, h⟩ := h
  obtain ⟨l3, h3, h⟩ := h
  obtain ⟨p2, hp2, h⟩ := h
  obtain ⟨l5, h5, h⟩ := h
  obtain ⟨gt, hgt, rfl⟩ := Option.map_eq_some'.mp h
  obtain ⟨en, fx, fy, ox, oy, wv, esa, mcp, me, ts, rfl, he, hesa, hmcp⟩ :=
    matchBeamTail_parts _ _ hgt
  exact ⟨en, fx, fy, ox, oy, wv, esa, mcp, me, ts, p1.1, p2.1, rfl, he, hesa, hmcp,
    angleTok_shape _ _ hp1, digitsTok_shape _ _ hp2⟩

/-- Decomposition of the `simple_energy` grammar. -/
theorem matchSimpleEnergyAt_parts (l : List Char) (g : Groups)
    (h : matchSimpleEnergyAt l = some g) :
    ∃ en ts, g = { beam_energy := some en, timestamp := ts } ∧ EnergyShapeL en := by
  unfold matchSimpleEnergyAt at h
  simp only [Option.bind_eq_some] at h
  obtain ⟨l1, h1, h⟩ := h
  obtain ⟨l2, h2, h⟩ := h
  obtain ⟨l3, h3, h⟩ := h
  obtain ⟨l4, h4, h⟩ := h
  obtain ⟨p, hp, rfl⟩ := Option.map_eq_some'.mp h
  exact ⟨p.1, tsOpt p.2, rfl, energyTokL_shape _ _ hp⟩

/-- Decomposition of the `voltage_energy` grammar. -/
theorem matchVoltageEnergyAt_parts (l : List Char) (g : Groups)
    (h : matchVoltageEnergyAt l = some g) :
    ∃ esa en ts,
      g = { esa_voltage := some esa, beam_energy := some en, timestamp := ts } ∧
      DigitsShape esa ∧ EnergyShapeC en := by
  unfold matchVoltageEnergyAt at h
  simp only [Option.bind_eq_some] at h
  obtain ⟨l1, h1, h⟩ := h
  obtain ⟨l2, h2, h⟩ := h
  obtain ⟨l3, h3, h⟩ := h
  obtain ⟨l4, h4, h⟩ := h
  obtain ⟨p1, hp1, h⟩ := h
  obtain ⟨l5, h5, h⟩ := h
  obtain ⟨l6, h6, h⟩ := h
  obtain ⟨p2, hp2, h⟩ := h
  obtain ⟨l7, h7, h⟩ := h
  obtain ⟨l8, h8, rfl⟩ := Option.map_eq_some'.mp h
  exact ⟨p1.1, p2.1, tsOpt l8, rfl, digitsTok_shape _ _ hp1, energyTokC_shape _ _ hp2⟩

/-- Decomposition of the `beam_prep` grammar. -/
theorem matchBeamPrepAt_parts (l : List Char) (g : Groups)
    (h : matchBeamPrepAt l = some g) :
    ∃ en ts, g = { beam_energy := some en, timestamp := ts } ∧ EnergyShapeC en := by
  unfold matchBeamPrepAt at h
  simp only [Option.bind_eq_some] at h
  obtain ⟨l1, h1, h⟩ := h
  obtain ⟨l2, h2, h⟩ := h
  obtain ⟨l3, h3, h⟩ := h
  obtain ⟨l4, h4, h⟩ := h
  obtain ⟨p1, hp1, h⟩ := h
  obtain ⟨l5, h5, h⟩ := h
  obtain ⟨l6, h6, h⟩ := h
  obtain ⟨l7, h7, h⟩ := h
  obtain ⟨l8, h8, rfl⟩ := Option.map_eq_some'.mp h
  exact ⟨p1.1, tsOpt l8, rfl, energyTokC_shape _ _ hp1⟩

/-- The optional piece forwards its inner parser's capture. -/
theorem optPiece_fst_some {α : Type} (f : List Char → Option (α × List Char))
    (l : List Char) (a : α) (h : (optPiece f l).1 = some a) :
    ∃ r, f l = some (a, r) := by
  unfold optPiece at h
  split at h
  · next a' r heq =>
    obtain rfl : a' = a := by simpa using h
    exact ⟨r, heq⟩
  · exact absurd h (by simp)

/-- The esa-voltage piece of the `ramp_up` grammar captures `\d+`. -/
theorem rampEsa_shape (r : List Char) (p : List Char × List Char)
    (h : ((spaces1 r).bind fun r1 =>
      (lit (chars "ESA") r1).bind fun r2 =>
      (spaces1 r2).bind fun r3 =>
      (digitsTok r3).bind fun q =>
      (lit (chars "V") q.2).map fun r4 => (q.1, r4)) = some p) :
    DigitsShape p.1 := by
  simp only [Option.bind_eq_some] at h
  obtain ⟨r1, hr1, h⟩ := h
  obtain ⟨r2, hr2, h⟩ := h
  obtain ⟨r3, hr3, h⟩ := h
  obtain ⟨q, hq, h⟩ := h
  obtain ⟨r4, hr4, rfl⟩ := Option.map_eq_some'.mp h
  exact digitsTok_shape r3 q hq

/-- Decomposition of the `ramp_up` grammar: the only `float()`ed capture
is the esa-voltage group, a `\d+` token. -/
theorem matchRampUpAt_parts (l : List Char) (g : Groups)
    (h : matchRampUpAt l = some g) :
    g.beam_energy = none ∧ g.mcp_voltage = none ∧ g.inner_angle = none ∧
    g.hor_value = none ∧
    (∀ t, g.esa_voltage = some t → DigitsShape t) := by
  unfold matchRampUpAt at h
  simp only [Option.bind_eq_some] at h
  obtain ⟨l1, h1, h⟩ := h
  obtain ⟨l2, h2, h⟩ := h
  obtain ⟨l4, h4, h⟩ := h
  obtain ⟨l5, h5, h⟩ := h
  obtain ⟨l6, h6, rfl⟩ := Option.map_eq_some'.mp h
  refine ⟨rfl, rfl, rfl, rfl, ?_⟩
  intro t ht
  obtain ⟨r, hr⟩ := optPiece_fst_some _ _ _ ht
  exact rampEsa_shape _ _ hr

/-- Decomposition of the `dark` grammar: no `float()`ed capture at all. -/
theorem matchDarkAt_parts (l : List Char) (g : Groups)
    (h : matchDarkAt l = some g) :
    g.beam_energy = none ∧ g.esa_voltage = none ∧ g.mcp_voltage = none ∧
    g.inner_angle = none ∧ g.hor_value = none := by
  unfold matchDarkAt at h
  simp only [Option.bind_eq_some] at h
  obtain ⟨l1, h1, h⟩ := h
  obtain ⟨l2, h2, h⟩ := h
  obtain ⟨l3, h3, h⟩ := h
  obtain ⟨l4, h4, h⟩ := h
  obtain ⟨l5, h5, h⟩ := h
  obtain ⟨l6, h6, h⟩ := h
  obtain ⟨p, hp, rfl⟩ := Option.map_eq_some'.mp h
  exact ⟨rfl, rfl, rfl, rfl, rfl⟩

/-- Decomposition of the `rotating` grammar. -/
theorem matchRotatingAt_parts (l : List Char) (g : Groups)
    (h : matchRotatingAt l = some g) :
    ∃ en fx fy ox oy wv esa mcp me ts sq,
      g = { beam_energy := some en, focus_x := some fx, focus_y := some fy,
            offset_x := some ox, offset_y := some oy, wave_type := some wv,
            esa_voltage := some esa, mcp_voltage := some mcp,
            mcp_extra := some me, timestamp := ts, sequence := sq } ∧
      EnergyShapeL en ∧ SignedDecShape esa ∧ DecimalShape mcp := by
  unfold matchRotatingAt at h
  simp only [Option.bind_eq_some] at h
  obtain ⟨l1, h1, h⟩ := h
  obtain ⟨l3, h3, h⟩ := h
  obtain ⟨gt, hgt, rfl⟩ := Option.map_eq_some'.mp h
  obtain ⟨en, fx, fy, ox, oy, wv, esa, mcp, me, ts, rfl, he, hesa, hmcp⟩ :=
    matchBeamTail_parts _ _ hgt
  exact ⟨en, fx, fy, ox, oy, wv, esa, mcp, me, ts, _, rfl, he, hesa, hmcp⟩

/-- Inversion for `re.search`: a search hit is a hit of the matcher at
some start position. -/
theorem searchPat_some (m : List Char → Option Groups) (l : List Char)
    (g : Groups) (h : searchPat m l = some g) : ∃ s, m s = some g := by
  induction l with
  | nil => exact ⟨[], h⟩
  | cons c t ih =>
    unfold searchPat at h
    split at h
    · next heq => exact ⟨c :: t, by rw [heq, h]⟩
    · exact ih h

/-- The well-formedness the extraction step needs of any matched group
dictionary: every `float()`ed capture is in its grammar language. -/
def GroupsShape (g : Groups) : Prop :=
  (∀ t, g.beam_energy = some t → EnergyShapeL t ∨ EnergyShapeC t) ∧
  (∀ t, g.esa_voltage = some t → SignedDecShape t) ∧
  (∀ t, g.mcp_voltage = some t → DecimalShape t) ∧
  (∀ t, g.inner_angle = some t → AngleShape t) ∧
  (∀ t, g.hor_value = some t → DigitsShape t)

/-- Every dispatched grammar produces a well-formed group dictionary. -/
theorem tryPatterns_shape (l : List Char) (nm : String) (g : Groups)
    (h : tryPatterns l = some (nm, g)) : GroupsShape g := by
  unfold tryPatterns at h
  split at h
  · next g1 heq =>
    obtain ⟨-, rfl⟩ := Prod.mk.injEq .. |>.mp (Option.some_injective _ h)
    obtain ⟨s, hm⟩ := searchPat_some _ _ _ heq
    obtain ⟨en, fx, fy, ox, oy, wv, esa, mcp, me, ts, ang, hor, rfl, he, hesa,
      hmcp, hang, hhor⟩ := matchDetailedAt_parts _ _ hm
    refine ⟨?_, ?_, ?_, ?_, ?_⟩ <;> intro t ht <;>
      obtain rfl := Option.some_injective _ ht
    · exact Or.inl he
    · exact hesa
    · exact hmcp
    · exact hang
    · exact hhor
  · split at h
    · next g1 heq =>
      obtain ⟨-, rfl⟩ := Prod.mk.injEq .. |>.mp (Option.some_injective _ h)
      obtain ⟨s, hm⟩ := searchPat_some _ _ _ heq
      obtain ⟨en, ts, rfl, he⟩ := matchSimpleEnergyAt_parts _ _ hm
      refine ⟨?_, ?_, ?_, ?_, ?_⟩ <;> intro t ht
      · obtain rfl := Option.some_injective _ ht
        exact Or.inl he
      all_goals simp at ht
    · split at h
      · next g1 heq =>
        obtain ⟨-, rfl⟩ := Prod.mk.injEq .. |>.mp (Option.some_injective _ h)
        obtain ⟨s, hm⟩ := searchPat_some _ _ _ heq
        obtain ⟨esa, en, ts, rfl, hesa, he⟩ := matchVoltageEnergyAt_parts _ _ hm
        refine ⟨?_, ?_, ?_, ?_, ?_⟩ <;> intro t ht
        · obtain rfl := Option.some_injective _ ht
          exact Or.inr he
        · obtain rfl := Option.some_injective _ ht
          exact Or.inl (Or.inl hesa)
        all_goals simp at ht
      · split at h
        · next g1 heq =>
          obtain ⟨-, rfl⟩ := Prod.mk.injEq .. |>.mp (Option.some_injective _ h)
          obtain ⟨s, hm⟩ := searchPat_some _ _ _ heq
          obtain ⟨en, ts, rfl, he⟩ := matchBeamPrepAt_parts _ _ hm
          refine ⟨?_, ?_, ?_, ?_, ?_⟩ <;> intro t ht
          · obtain rfl := Option.some_injective _ ht
            exact Or.inr he
          all_goals simp at ht
        · split at h
          · next g1 heq =>
            obtain ⟨-, rfl⟩ := Prod.mk.injEq .. |>.mp (Option.some_injective _ h)
            obtain ⟨s, hm⟩ := searchPat_some _ _ _ heq
            obtain ⟨hbe, hmc, hia, hhv, hesa⟩ := matchRampUpAt_parts _ _ hm
            refine ⟨?_, ?_, ?_, ?_, ?_⟩ <;> intro t ht
            · rw [hbe] at ht; simp at ht
            · exact Or.inl (Or.inl (hesa t ht))
            · rw [hmc] at ht; simp at ht
            · rw [hia] at ht; simp at ht
            · rw [hhv] at ht; simp at ht
          · split at h
            · next g1 heq =>
              obtain ⟨-, rfl⟩ := Prod.mk.injEq .. |>.mp (Option.some_injective _ h)
              obtain ⟨s, hm⟩ := searchPat_some _ _ _ heq
              obtain ⟨hbe, hesa, hmc, hia, hhv⟩ := matchDarkAt_parts _ _ hm
              refine ⟨?_, ?_, ?_, ?_, ?_⟩ <;> intro t ht
              · rw [hbe] at ht; simp at ht
              · rw [hesa] at ht; simp at ht
              · rw [hmc] at ht; simp at ht
              · rw [hia] at ht; simp at ht
              · rw [hhv] at ht; simp at ht
            · split at h
              · next g1 heq =>
                obtain ⟨-, rfl⟩ := Prod.mk.injEq .. |>.mp (Option.some_injective _ h)
                obtain ⟨s, hm⟩ := searchPat_some _ _ _ heq
                obtain ⟨en, fx, fy, ox, oy, wv, esa, mcp, me, ts, sq, rfl, he,
                  hesa, hmcp⟩ := matchRotatingAt_parts _ _ hm
                refine ⟨?_, ?_, ?_, ?_, ?_⟩ <;> intro t ht
                · obtain rfl := Option.some_injective _ ht
                  exact Or.inl he
                · obtain rfl := Option.some_injective _ ht
                  exact hesa
                · obtain rfl := Option.some_injective _ ht
                  exact hmcp
                all_goals simp at ht
              · exact absurd h (by simp)

/-! ## Totality of extraction (C2) -/

/-- The beam-energy step never raises on a well-formed group. -/
theorem applyEnergy_total (g : Groups) (p : ExperimentalParameters)
    (hs : ∀ t, g.beam_energy = some t → EnergyShapeL t ∨ EnergyShapeC t) :
    (applyEnergy g p).isSome = true := by
  cases hbe : g.beam_energy with
  | none => simp [applyEnergy, hbe]
  | some t =>
    by_cases hte : t = []
    · simp [applyEnergy, hbe, hte]
    · rcases hs t hbe with hL | hC
      · obtain ⟨vu, hvu⟩ := parse_energy_of_shapeL t hL
        simp [applyEnergy, hbe, hte, hvu]
      · obtain ⟨vu, hvu⟩ := parse_energy_of_shapeC t hC
        simp [applyEnergy, hbe, hte, hvu]

/-- The ESA-voltage step never raises on a well-formed group. -/
theorem applyEsa_total (g : Groups) (p : ExperimentalParameters)
    (hs : ∀ t, g.esa_voltage = some t → SignedDecShape t) :
    (applyEsa g p).isSome = true := by
  cases hbe : g.esa_voltage with
  | none => simp [applyEsa, hbe]
  | some t =>
    by_cases hte : t = []
    · simp [applyEsa, hbe, hte]
    · obtain ⟨v, hv⟩ := parseFloat?_signedDec t (hs t hbe)
      simp [applyEsa, hbe, hte, hv]

/-- The MCP-voltage step never raises on a well-formed group. -/
theorem applyMcp_total (g : Groups) (p : ExperimentalParameters)
    (hs : ∀ t, g.mcp_voltage = some t → DecimalShape t) :
    (applyMcp g p).isSome = true := by
  cases hbe : g.mcp_voltage with
  | none => simp [applyMcp, hbe]
  | some t =>
    by_cases hte : t = []
    · simp [applyMcp, hbe, hte]
    · obtain ⟨v, hv⟩ := parseFloat?_signedDec t (Or.inl (hs t hbe))
      simp [applyMcp, hbe, hte, hv]

/-- The inner-angle step never raises on a well-formed group (in
particular the unreachable `NameError` branch of `_parse_angle` is
indeed unreachable). -/
theorem applyAngle_total (g : Groups) (p : ExperimentalParameters)
    (hs : ∀ t, g.inner_angle = some t → AngleShape t) :
    (applyAngle g p).isSome = true := by
  cases hbe : g.inner_angle with
  | none => simp [applyAngle, hbe]
  | some t =>
    by_cases hte : t = []
    · simp [applyAngle, hbe, hte]
    · obtain ⟨r, hr⟩ := parse_angle_of_shape t (hs t hbe)
      simp [applyAngle, hbe, hte, hr]

/-- The horizontal-value step never raises on a well-formed group. -/
theorem applyHor_total (g : Groups) (p : ExperimentalParameters)
    (hs : ∀ t, g.hor_value = some t → DigitsShape t) :
    (applyHor g p).isSome = true := by
  cases hbe : g.hor_value with
  | none => simp [applyHor, hbe]
  | some t =>
    by_cases hte : t = []
    · simp [applyHor, hbe, hte]
    · obtain ⟨v, hv⟩ := parseFloat?_signedInt t (Or.inl (hs t hbe))
      simp [applyHor, hbe, hte, hv]

/-- Extraction is total on every well-formed group dictionary. -/
theorem extract_params_total (g : Groups) (nm : String)
    (p0 : ExperimentalParameters) (hs : GroupsShape g) :
    ∃ q, extract_params g nm p0 = some q := by
  obtain ⟨h1, h2, h3, h4, h5⟩ := hs
  obtain ⟨p1, hp1⟩ := Option.isSome_iff_exists.mp (applyEnergy_total g p0 h1)
  obtain ⟨p2, hp2⟩ := Option.isSome_iff_exists.mp (applyEsa_total g p1 h2)
  obtain ⟨p3, hp3⟩ := Option.isSome_iff_exists.mp (applyMcp_total g p2 h3)
  obtain ⟨p4, hp4⟩ := Option.isSome_iff_exists.mp (applyAngle_total g p3 h4)
  obtain ⟨p5, hp5⟩ := Option.isSome_iff_exists.mp (applyHor_total g p4 h5)
  exact ⟨applyRest g nm p5, by
    unfold extract_params
    rw [hp1, Option.some_bind, hp2, Option.some_bind, hp3, Option.some_bind,
      hp4, Option.some_bind, hp5, Option.map_some']⟩

/-- Here `parse_filename` never lets an exception escape. -/
theorem parse_filename_total (s : String) : ∃ p, parse_filename s = some p := by
  unfold parse_filename
  cases htp : tryPatterns (nameForParsing s) with
  | none => exact ⟨_, rfl⟩
  | some ng =>
    obtain ⟨nm, g⟩ := ng
    obtain ⟨q, hq⟩ :=
      extract_params_total g nm (initParams s) (tryPatterns_shape _ _ _ htp)
    exact ⟨post_process q, by simp [hq]⟩

/-- C2 : `parse_filename` is total — for every input string (malformed
ones included) it returns a ParameterRecord rather than raising — and
when no grammar matches, the record has every optional parameter field
absent (the record-literal defaults) and `test_type = "unknown"`. -/
theorem C2_parse_total (s : String) :
    (parse_filename s).isSome = true ∧
    (tryPatterns (nameForParsing s) = none →
      parse_filename s = some
        { filename := s,
          file_type := get_file_type (afterLastSlash (chars s)),
          base_name := strOf (afterLastSlash (chars s)),
          test_type := some "unknown" }) := by
  constructor
  · obtain ⟨p, hp⟩ := parse_filename_total s
    rw [hp]; rfl
  · intro hnone
    unfold parse_filename
    rw [hnone]
    rfl

/-- C2 witness : a filename no grammar matches yields the mostly-empty
`"unknown"` record. -/
theorem C2_witness :
    (parse_filename "hello.fits").isSome = true ∧
    parse_filename "hello.fits" = some
      { filename := "hello.fits",
        file_type := get_file_type (afterLastSlash (chars "hello.fits")),
        base_name := strOf (afterLastSlash (chars "hello.fits")),
        test_type := some "unknown" } :=
  ⟨(C2_parse_total "hello.fits").1, (C2_parse_total "hello.fits").2 (by decide)⟩

/-! ## Field preservation along the extraction chain (C3, C4) -/

/-- Here `applyEnergy` writes only the energy fields. -/
theorem applyEnergy_preserves (g : Groups) (p p' : ExperimentalParameters)
    (h : applyEnergy g p = some p') :
    p'.inner_angle_value = p.inner_angle_value ∧
    p'.inner_angle_range = p.inner_angle_range ∧
    p'.is_angle_range = p.is_angle_range := by
  cases hbe : g.beam_energy with
  | none =>
    simp only [applyEnergy, hbe] at h
    obtain rfl := Option.some_injective _ h
    exact ⟨rfl, rfl, rfl⟩
  | some t =>
    simp only [applyEnergy, hbe] at h
    by_cases hte : t = []
    · rw [if_pos hte] at h
      obtain rfl := Option.some_injective _ h
      exact ⟨rfl, rfl, rfl⟩
    · rw [if_neg hte] at h
      obtain ⟨v, hv, rfl⟩ := Option.map_eq_some'.mp h
      exact ⟨rfl, rfl, rfl⟩

/-- Here `applyEsa` writes only the voltage fields. -/
theorem applyEsa_preserves (g : Groups) (p p' : ExperimentalParameters)
    (h : applyEsa g p = some p') :
    p'.beam_energy_value = p.beam_energy_value ∧
    p'.beam_energy_unit = p.beam_energy_unit ∧
    p'.inner_angle_value = p.inner_angle_value ∧
    p'.inner_angle_range = p.inner_angle_range ∧
    p'.is_angle_range = p.is_angle_range := by
  cases hbe : g.esa_voltage with
  | none =>
    simp only [applyEsa, hbe] at h
    obtain rfl := Option.some_injective _ h
    exact ⟨rfl, rfl, rfl, rfl, rfl⟩
  | some t =>
    simp only [applyEsa, hbe] at h
    by_cases hte : t = []
    · rw [if_pos hte] at h
      obtain rfl := Option.some_injective _ h
      exact ⟨rfl, rfl, rfl, rfl, rfl⟩
    · rw [if_neg hte] at h
      obtain ⟨v, hv, rfl⟩ := Option.map_eq_some'.mp h
      exact ⟨rfl, rfl, rfl, rfl, rfl⟩

/-- Here `applyMcp` writes only the MCP fields. -/
theorem applyMcp_preserves (g : Groups) (p p' : ExperimentalParameters)
    (h : applyMcp g p = some p') :
    p'.beam_energy_value = p.beam_energy_value ∧
    p'.beam_energy_unit = p.beam_energy_unit ∧
    p'.inner_angle_value = p.inner_angle_value ∧
    p'.inner_angle_range = p.inner_angle_range ∧
    p'.is_angle_range = p.is_angle_range := by
  cases hbe : g.mcp_voltage with
  | none =>
    simp only [applyMcp, hbe] at h
    obtain rfl := Option.some_injective _ h
    exact ⟨rfl, rfl, rfl, rfl, rfl⟩
  | some t =>
    simp only [applyMcp, hbe] at h
    by_cases hte : t = []
    · rw [if_pos hte] at h
      obtain rfl := Option.some_injective _ h
      exact ⟨rfl, rfl, rfl, rfl, rfl⟩
    · rw [if_neg hte] at h
      obtain ⟨v, hv, rfl⟩ := Option.map_eq_some'.mp h
      exact ⟨rfl, rfl, rfl, rfl, rfl⟩

/-- Here `applyAngle` leaves the energy fields alone. -/
theorem applyAngle_preserves (g : Groups) (p p' : ExperimentalParameters)
    (h : applyAngle g p = some p') :
    p'.beam_energy_value = p.beam_energy_value ∧
    p'.beam_energy_unit = p.beam_energy_unit := by
  cases hbe : g.inner_angle with
  | none =>
    simp only [applyAngle, hbe] at h
    obtain rfl := Option.some_injective _ h
    exact ⟨rfl, rfl⟩
  | some t =>
    simp only [applyAngle, hbe] at h
    by_cases hte : t = []
    · rw [if_pos hte] at h
      obtain rfl := Option.some_injective _ h
      exact ⟨rfl, rfl⟩
    · rw [if_neg hte] at h
      obtain ⟨r, hr, rfl⟩ := Option.map_eq_some'.mp h
      cases r with
      | inl v => exact ⟨rfl, rfl⟩
      | inr ab => exact ⟨rfl, rfl⟩

/-- Here `applyHor` writes only the horizontal fields. -/
theorem applyHor_preserves (g : Groups) (p p' : ExperimentalParameters)
    (h : applyHor g p = some p') :
    p'.beam_energy_value = p.beam_energy_value ∧
    p'.beam_energy_unit = p.beam_energy_unit ∧
    p'.inner_angle_value = p.inner_angle_value ∧
    p'.inner_angle_range = p.inner_angle_range ∧
    p'.is_angle_range = p.is_angle_range := by
  cases hbe : g.hor_value with
  | none =>
    simp only [applyHor, hbe] at h
    obtain rfl := Option.some_injective _ h
    exact ⟨rfl, rfl, rfl, rfl, rfl⟩
  | some t =>
    simp only [applyHor, hbe] at h
    by_cases hte : t = []
    · rw [if_pos hte] at h
      obtain rfl := Option.some_injective _ h
      exact ⟨rfl, rfl, rfl, rfl, rfl⟩
    · rw [if_neg hte] at h
      obtain ⟨v, hv, rfl⟩ := Option.map_eq_some'.mp h
      exact ⟨rfl, rfl, rfl, rfl, rfl⟩

/-- Here `applyRest` never touches the energy or angle value fields. -/
theorem applyRest_preserves (g : Groups) (nm : String)
    (p : ExperimentalParameters) :
    (applyRest g nm p).beam_energy_value = p.beam_energy_value ∧
    (applyRest g nm p).beam_energy_unit = p.beam_energy_unit ∧
    (applyRest g nm p).inner_angle_value = p.inner_angle_value ∧
    (applyRest g nm p).inner_angle_range = p.inner_angle_range ∧
    (applyRest g nm p).is_angle_range = p.is_angle_range := by
  simp only [applyRest]
  repeat' split
  all_goals exact ⟨rfl, rfl, rfl, rfl, rfl⟩

/-- Here `post_process` writes only `test_type`. -/
theorem post_process_preserves (p : ExperimentalParameters) :
    (post_process p).beam_energy_value = p.beam_energy_value ∧
    (post_process p).beam_energy_unit = p.beam_energy_unit ∧
    (post_process p).inner_angle_value = p.inner_angle_value ∧
    (post_process p).inner_angle_range = p.inner_angle_range ∧
    (post_process p).is_angle_range = p.is_angle_range :=
  ⟨rfl, rfl, rfl, rfl, rfl⟩

/-! ## C3 : angle ranges -/

/-- Decomposition of a successful `parse_filename` run whose dispatch is
known: the record is the post-processed end of the five extraction
steps. -/
theorem parse_filename_steps (s : String) (nm : String) (g : Groups)
    (p : ExperimentalParameters)
    (hm : tryPatterns (nameForParsing s) = some (nm, g))
    (hp : parse_filename s = some p) :
    ∃ p1 p2 p3 p4 p5,
      applyEnergy g (initParams s) = some p1 ∧ applyEsa g p1 = some p2 ∧
      applyMcp g p2 = some p3 ∧ applyAngle g p3 = some p4 ∧
      applyHor g p4 = some p5 ∧ p = post_process (applyRest g nm p5) := by
  unfold parse_filename at hp
  rw [hm] at hp
  have hp' : Option.map post_process (extract_params g nm (initParams s)) = some p := hp
  obtain ⟨q, hq, rfl⟩ := Option.map_eq_some'.mp hp'
  unfold extract_params at hq
  simp only [Option.bind_eq_some] at hq
  obtain ⟨p1, h1, hq⟩ := hq
  obtain ⟨p2, h2, hq⟩ := hq
  obtain ⟨p3, h3, hq⟩ := hq
  obtain ⟨p4, h4, hq⟩ := hq
  obtain ⟨p5, h5, rfl⟩ := Option.map_eq_some'.mp hq
  exact ⟨p1, p2, p3, p4, p5, h1, h2, h3, h4, h5, rfl⟩

/-- C3 : for every parsed filename whose (grammar-captured) angle token
has the form `"AtoB"` — two `float()`-able tokens joined by the literal
`to` — the record has `is_angle_range = true`, stores the range
`(min A B, max A B)`, and its representative angle is the midpoint
`(A + B) / 2`. -/
theorem C3_angle_ranges (s : String) (g : Groups) (p : ExperimentalParameters)
    (ta tb : List Char) (A B : ℚ)
    (hm : tryPatterns (nameForParsing s) = some ("detailed", g))
    (hg : g.inner_angle = some (ta ++ 't' :: 'o' :: tb))
    (hA : parseFloat? ta = some A) (hB : parseFloat? tb = some B)
    (hp : parse_filename s = some p) :
    p.is_angle_range = true ∧
    p.inner_angle_range = some (min A B, max A B) ∧
    p.inner_angle_value = some ((A + B) / 2) := by
  obtain ⟨p1, p2, p3, p4, p5, h1, h2, h3, h4, h5, rfl⟩ :=
    parse_filename_steps s "detailed" g p hm hp
  have hne : ¬ (ta ++ 't' :: 'o' :: tb) = [] := by simp
  have hpa := parse_angle_pair ta tb A B hA hB
  simp only [applyAngle, hg, if_neg hne, hpa, Option.map_some'] at h4
  obtain rfl := Option.some_injective _ h4
  obtain ⟨-, -, hv5, hr5, hf5⟩ := applyHor_preserves g _ p5 h5
  obtain ⟨-, -, hvr, hrr, hfr⟩ := applyRest_preserves g "detailed" p5
  obtain ⟨-, -, hvp, hrp, hfp⟩ :=
    post_process_preserves (applyRest g "detailed" p5)
  have hmm : min A B + max A B = A + B := min_add_max A B
  refine ⟨?_, ?_, ?_⟩
  · rw [hfp, hfr, hf5]
  · rw [hrp, hrr, hr5]
  · rw [hvp, hvr, hv5, ← hmm]

/-- The concrete angle-range filename for the C3 witness. -/
def rangeName : String :=
  "ACI_ESA-Inner-84to-118-Hor79_Beam-1000eV_Focus-X-pt4-Y-2_Offset-X--pt1_Y-1_Wave-Triangle_ESA--181_MCP-2200-100.fits"

/-- The groups its `detailed` match captures. -/
def rangeGroups : Groups :=
  ((tryPatterns (nameForParsing rangeName)).getD ("", {})).2

/-- The record it parses to. -/
def rangeParams : ExperimentalParameters :=
  (parse_filename rangeName).getD (initParams rangeName)

set_option maxRecDepth 100000 in
/-- C3 witness : the `84to-118` token yields the range `(-118, 84)`,
midpoint `(84 + (-118)) / 2`, with the range flag set. -/
theorem C3_witness :
    rangeParams.is_angle_range = true ∧
    rangeParams.inner_angle_range = some (min 84 (-118), max 84 (-118)) ∧
    rangeParams.inner_angle_value = some (((84 : ℚ) + (-118)) / 2) :=
  C3_angle_ranges rangeName rangeGroups rangeParams
    (chars "84") (chars "-118") 84 (-118) rfl (by decide) (by decide) (by decide) rfl

/-! ## C4 : energy normalization under the fully-annotated grammar -/

/-- A `"detailed"` dispatch really came from the `detailed` matcher. -/
theorem tryPatterns_detailed (l : List Char) (g : Groups)
    (h : tryPatterns l = some ("detailed", g)) :
    ∃ s, matchDetailedAt s = some g := by
  unfold tryPatterns at h
  split at h
  · next g1 heq =>
    obtain ⟨-, rfl⟩ := Prod.mk.injEq .. |>.mp (Option.some_injective _ h)
    exact searchPat_some _ _ _ heq
  · split at h
    · next g1 heq =>
      exact absurd (Prod.mk.injEq .. |>.mp (Option.some_injective _ h)).1 (by decide)
    · split at h
      · next g1 heq =>
        exact absurd (Prod.mk.injEq .. |>.mp (Option.some_injective _ h)).1 (by decide)
      · split at h
        · next g1 heq =>
          exact absurd (Prod.mk.injEq .. |>.mp (Option.some_injective _ h)).1 (by decide)
        · split at h
          · next g1 heq =>
            exact absurd (Prod.mk.injEq .. |>.mp (Option.some_injective _ h)).1 (by decide)
          · split at h
            · next g1 heq =>
              exact absurd (Prod.mk.injEq .. |>.mp (Option.some_injective _ h)).1 (by decide)
            · split at h
              · next g1 heq =>
                exact absurd (Prod.mk.injEq .. |>.mp (Option.some_injective _ h)).1 (by decide)
              · exact absurd h (by simp)

/-- Characters of a decimal token. -/
theorem decimalShape_chars (d : List Char) (h : DecimalShape d) :
    ∀ c ∈ d, c.isDigit = true ∨ c = '.' := by
  rcases h with ⟨-, hall⟩ | ⟨a, f, rfl, ha, hf⟩
  · exact fun c hc => Or.inl (hall c hc)
  · intro c hc
    rcases List.mem_append.mp hc with h1 | h2
    · exact Or.inl (ha.2 c h1)
    · rcases List.mem_cons.mp h2 with rfl | h3
      · exact Or.inr rfl
      · exact Or.inl (hf.2 c h3)

/-- A `float()`-able token contains no `'k'`. -/
theorem no_k_of_parseFloat (d : List Char) (v : ℚ) (h : parseFloat? d = some v) :
    ∀ c ∈ d, ¬ c = 'k' := by
  intro c hc he
  subst he
  rcases parseFloat?_chars d v h 'k' hc with h1 | h1 | h1 | h1 <;> simp_all

/-- A decimal token contains no `'k'`. -/
theorem no_k_of_decimal (d : List Char) (h : DecimalShape d) :
    ∀ c ∈ d, ¬ c = 'k' := by
  intro c hc he
  subst he
  rcases decimalShape_chars d h 'k' hc with h1 | h1 <;> simp_all

/-- An `eV`-suffixed token with a `'k'`-free stem is never a
`keV`-suffixed token. -/
theorem append_eV_ne_keV (x y : List Char) (hx : ∀ c ∈ x, ¬ c = 'k') :
    x ++ chars "eV" ≠ y ++ chars "keV" := by
  intro h
  have h' := congrArg List.reverse h
  rw [List.reverse_append, List.reverse_append] at h'
  have hxe : (chars "eV").reverse = ['V', 'e'] := rfl
  have hke : (chars "keV").reverse = ['V', 'e', 'k'] := rfl
  rw [hxe, hke] at h'
  simp only [List.cons_append, List.nil_append, List.cons.injEq, true_and] at h'
  have hk : 'k' ∈ x := by
    rw [← List.mem_reverse, h']
    simp
  exact hx 'k' hk rfl

/-- C4 : for every filename matching the fully-annotated (`detailed`)
grammar, `beam_energy_value` equals the literal numeric token when the
unit suffix is `eV`, equals 1000 times it when the suffix is the
grammar's kilo-unit, and `beam_energy_unit` is always normalized to
`"eV"`. -/
theorem C4_energy_normalization (s : String) (g : Groups)
    (p : ExperimentalParameters) (d : List Char) (v : ℚ)
    (hm : tryPatterns (nameForParsing s) = some ("detailed", g))
    (hv : parseFloat? d = some v)
    (hp : parse_filename s = some p) :
    (g.beam_energy = some (d ++ chars "eV") →
      p.beam_energy_value = some v ∧ p.beam_energy_unit = some "eV") ∧
    (g.beam_energy = some (d ++ chars "keV") →
      p.beam_energy_value = some (v * 1000) ∧ p.beam_energy_unit = some "eV") := by
  obtain ⟨p1, p2, p3, p4, p5, h1, h2, h3, h4, h5, rfl⟩ :=
    parse_filename_steps s "detailed" g _ hm hp
  obtain ⟨s', hds⟩ := tryPatterns_detailed _ _ hm
  obtain ⟨hbeR, hbuR, -, -, -⟩ := applyRest_preserves g "detailed" p5
  obtain ⟨hbeP, hbuP, -, -, -⟩ := post_process_preserves (applyRest g "detailed" p5)
  obtain ⟨en, fx, fy, ox, oy, wv, esa, mcp, me, ts, ang, hor, rfl, he, -, -, -, -⟩ :=
    matchDetailedAt_parts _ _ hds
  obtain ⟨hbe2, hbu2, -, -, -⟩ := applyEsa_preserves _ _ _ h2
  obtain ⟨hbe3, hbu3, -, -, -⟩ := applyMcp_preserves _ _ _ h3
  obtain ⟨hbe4, hbu4⟩ := applyAngle_preserves _ _ _ h4
  obtain ⟨hbe5, hbu5, -, -, -⟩ := applyHor_preserves _ _ _ h5
  constructor
  · intro hg
    obtain rfl : en = d ++ chars "eV" := Option.some_injective _ hg
    obtain ⟨d', hd', hcase⟩ := he
    have hpe : parse_energy (d ++ chars "eV") = some (v, "eV") := by
      rcases hcase with heq | heq
      · obtain rfl : d = d' := List.append_cancel_right heq
        exact parse_energy_eV d v hd' hv
      · exact absurd heq (append_eV_ne_keV d d' (no_k_of_parseFloat d v hv))
    have hne : ¬ (d ++ chars "eV") = [] := by
      intro hcon
      exact absurd (List.append_eq_nil.mp hcon).2 (by decide)
    simp only [applyEnergy, if_neg hne, hpe, Option.map_some'] at h1
    obtain rfl := Option.some_injective _ h1
    exact ⟨by rw [hbeP, hbeR, hbe5, hbe4, hbe3, hbe2],
      by rw [hbuP, hbuR, hbu5, hbu4, hbu3, hbu2]⟩
  · intro hg
    obtain rfl : en = d ++ chars "keV" := Option.some_injective _ hg
    obtain ⟨d', hd', hcase⟩ := he
    have hpe : parse_energy (d ++ chars "keV") = some (v * 1000, "eV") := by
      rcases hcase with heq | heq
      · exact absurd heq.symm (append_eV_ne_keV d' d (no_k_of_decimal d' hd'))
      · exact parse_energy_keV d v hv
    have hne : ¬ (d ++ chars "keV") = [] := by
      intro hcon
      exact absurd (List.append_eq_nil.mp hcon).2 (by decide)
    simp only [applyEnergy, if_neg hne, hpe, Option.map_some'] at h1
    obtain rfl := Option.some_injective _ h1
    exact ⟨by rw [hbeP, hbeR, hbe5, hbe4, hbe3, hbe2],
      by rw [hbuP, hbuR, hbu5, hbu4, hbu3, hbu2]⟩

/-- The groups of the detailed witness filename (beam token `1000eV`). -/
def detGroups : Groups :=
  ((tryPatterns (nameForParsing
    "ACI_ESA-Inner-62-Hor79_Beam-1000eV_Focus-X-pt4-Y-2_Offset-X--pt1_Y-1_Wave-Triangle_ESA--181_MCP-2200-100240922-213604.fits")).getD ("", {})).2

/-- The parsed record of the detailed witness filename. -/
def detParams : ExperimentalParameters :=
  (parse_filename
    "ACI_ESA-Inner-62-Hor79_Beam-1000eV_Focus-X-pt4-Y-2_Offset-X--pt1_Y-1_Wave-Triangle_ESA--181_MCP-2200-100240922-213604.fits").getD
    (initParams "x")

set_option maxRecDepth 100000 in
/-- C4 witness : the `1000eV` token of a concrete fully-annotated
filename yields `beam_energy_value = 1000` and unit `"eV"`. -/
theorem C4_witness :
    detParams.beam_energy_value = some 1000 ∧
    detParams.beam_energy_unit = some "eV" :=
  (C4_energy_normalization
    "ACI_ESA-Inner-62-Hor79_Beam-1000eV_Focus-X-pt4-Y-2_Offset-X--pt1_Y-1_Wave-Triangle_ESA--181_MCP-2200-100240922-213604.fits"
    detGroups detParams (chars "1000") 1000 rfl (by decide) rfl).1 (by decide)

/-! ## C6 : comparison-set guarantees -/

/-- Retagging `varying_parameters` / `description` does not change the
observed parameter values (they only depend on the group's files). -/
theorem get_parameter_values_retag (g : ExperimentGroup) (vp : List String)
    (d : String) (prm : String) :
    get_parameter_values { g with varying_parameters := vp, description := d } prm =
      get_parameter_values g prm := rfl

/-- C6 : every group returned by `find_comparison_sets` has at least two
files, observes at least two distinct (non-absent) values of the varying
parameter among its files, and carries exactly `[varyingName]` as its
`varying_parameters` — in particular
`find_comparison_sets files ["beam_energy_value"] "esa_voltage_value"`
never returns a group with fewer than two distinct voltage values. -/
theorem C6_comparison_sets (files : List DataFile) (fixed : List String)
    (varying : String) (g : ExperimentGroup)
    (hg : g ∈ find_comparison_sets files fixed varying) :
    2 ≤ g.files.length ∧ 2 ≤ (get_parameter_values g varying).length ∧
    g.varying_parameters = [varying] := by
  unfold find_comparison_sets at hg
  obtain ⟨g0, hg0, hif⟩ := List.mem_filterMap.mp hg
  by_cases hlt : 1 < (get_parameter_values g0 varying).length
  · rw [if_pos hlt] at hif
    obtain rfl : _ = g := Option.some_injective _ hif
    refine ⟨?_, ?_, rfl⟩
    · have := (List.mem_filter.mp hg0).2
      exact of_decide_eq_true this
    · rw [get_parameter_values_retag]
      exact hlt
  · rw [if_neg hlt] at hif
    exact absurd hif (by simp)

/-- Witness parameter records : same beam energy, different voltages. -/
def witParamsA : ExperimentalParameters :=
  { filename := "a.fits", file_type := "fits", base_name := "a.fits",
    beam_energy_value := some 1000, esa_voltage_value := some (-1) }

/-- Second witness record. -/
def witParamsB : ExperimentalParameters :=
  { filename := "b.fits", file_type := "fits", base_name := "b.fits",
    beam_energy_value := some 1000, esa_voltage_value := some (-2) }

/-- Witness catalog : two files sharing the fixed parameter. -/
def witFiles : List DataFile :=
  [{ filepath := "a.fits", parameters := witParamsA, file_type := "fits" },
   { filepath := "b.fits", parameters := witParamsB, file_type := "fits" }]

/-- The empty group (used as an `Option.getD`-style default). -/
def emptyGroup : ExperimentGroup := { name := "", description := "" }

/-- C6 witness : on the concrete two-file catalog, the head comparison
group satisfies all three guarantees. -/
theorem C6_witness :
    2 ≤ ((find_comparison_sets witFiles ["beam_energy_value"] "esa_voltage_value").headD
        emptyGroup).files.length ∧
    2 ≤ (get_parameter_values
        ((find_comparison_sets witFiles ["beam_energy_value"] "esa_voltage_value").headD
          emptyGroup) "esa_voltage_value").length ∧
    ((find_comparison_sets witFiles ["beam_energy_value"] "esa_voltage_value").headD
        emptyGroup).varying_parameters = ["esa_voltage_value"] :=
  C6_comparison_sets witFiles ["beam_energy_value"] "esa_voltage_value" _ (by decide)

end XDL
